import Mathlib

/-
Verification of the rushTrade CLOB backend (src/backend/app/modules/terminal/clob
and src/backend/app/tasks/settlement_tasks.py).

The Python source computes prices with the `decimal` module at its default
context: 28 significant digits, ROUND_HALF_EVEN.  We embed decimal values as
unreduced integer fractions (`Frac`) so that every operation is executable by
kernel reduction; a single rounding primitive `rnd28F` models the result of one
decimal arithmetic operation (the exact rational result rounded to 28
significant digits, ties to even).  Quantities are arbitrary-precision
integers, exactly as in the source (Python ints stored as decimal strings).
-/

namespace RushTrade

/-- Unreduced fraction `num / den` used to model Python `Decimal` values.
`den` is a natural number; every constructor in this file produces a positive
denominator.  Equality of values is `Frac.veq`, not structural equality. -/
structure Frac where
  num : Int
  den : Nat
deriving DecidableEq, Repr

/-- Rational value denoted by a fraction. -/
def Frac.val (f : Frac) : ℚ := (f.num : ℚ) / (f.den : ℚ)

/-- Value-level strict comparison by cross multiplication. -/
def Frac.vlt (a b : Frac) : Bool := decide (a.num * (b.den : Int) < b.num * (a.den : Int))

/-- Value-level non-strict comparison by cross multiplication. -/
def Frac.vle (a b : Frac) : Bool := decide (a.num * (b.den : Int) ≤ b.num * (a.den : Int))

/-- Value-level equality by cross multiplication. -/
def Frac.veq (a b : Frac) : Bool := decide (a.num * (b.den : Int) = b.num * (a.den : Int))

/-- Truncation toward zero, the ROUND_DOWN mode of
`Decimal.to_integral_value(ROUND_DOWN)` used at matching.py:180/185. -/
def truncF (f : Frac) : Int :=
  if 0 ≤ f.num then Int.fdiv f.num (f.den : Int)
  else -(Int.fdiv (-f.num) (f.den : Int))

/-- Round the value of `f` to the nearest integer, ties to even:
the ROUND_HALF_EVEN mode that is the default rounding of the Python
decimal context. -/
def halfEvenF (f : Frac) : Int :=
  let q := Int.fdiv f.num (f.den : Int)
  let r := f.num - q * (f.den : Int)
  if 2 * r < (f.den : Int) then q
  else if (f.den : Int) < 2 * r then q + 1
  else if q % 2 = 0 then q else q + 1

/-- Greatest `e` such that `d * 10^e ≤ n`, for `d ≤ n`; fuel-bounded so that it
reduces in the kernel.  Used to find the decimal exponent of a value `≥ 1`. -/
def expUp : Nat → Nat → Nat → Nat
  | 0, _, _ => 0
  | fuel+1, n, d => if n < d * 10 then 0 else expUp fuel n (d * 10) + 1

/-- Least `k ≥ 1` such that `d ≤ n * 10^k`, for `n < d`; fuel-bounded.  Used to
find the decimal exponent of a value `< 1`. -/
def expDown : Nat → Nat → Nat → Nat
  | 0, _, _ => 0
  | fuel+1, n, d => if d ≤ n * 10 then 1 else expDown fuel (n * 10) d + 1

/-- Fuel for the decimal-exponent search.  All quantities in the source are
uint256 values (at most 78 decimal digits, see matching.py docstring), so every
value arising in matching has decimal exponent well inside ±400 and the search
always terminates before the fuel runs out. -/
def DECIMAL_FUEL : Nat := 400

/-- Decimal exponent of the value of `f` (position of the leading digit):
the unique `e` with `10^e ≤ |val f| < 10^(e+1)` for nonzero values in fuel
range. -/
def decExpF (f : Frac) : Int :=
  if f.num.natAbs < f.den then -(expDown DECIMAL_FUEL f.num.natAbs f.den : Int)
  else (expUp DECIMAL_FUEL f.num.natAbs f.den : Int)

/-- Result of one Python decimal arithmetic operation at the default context:
the exact (nonnegative) rational result rounded to 28 significant digits,
ties to even.  A nonpositive operand never occurs in the source; it is mapped
to zero.  The returned fraction always has a positive power-of-ten
denominator. -/
def rnd28F (f : Frac) : Frac :=
  if f.num ≤ 0 then ⟨0, 1⟩
  else
    let e : Int := decExpF f - 27
    if 0 ≤ e then ⟨halfEvenF ⟨f.num, f.den * 10 ^ e.toNat⟩ * ((10 ^ e.toNat : Nat) : Int), 1⟩
    else ⟨halfEvenF ⟨f.num * ((10 ^ (-e).toNat : Nat) : Int), f.den⟩, 10 ^ (-e).toNat⟩

/-- Exact product of an integer and a fraction (the unrounded value of
`Decimal(k) * f` before context rounding). -/
def scaleIntF (k : Int) (f : Frac) : Frac := ⟨k * f.num, f.den⟩

/-- Exact sum of two fractions (the unrounded value of decimal `+`). -/
def addF (a b : Frac) : Frac := ⟨a.num * (b.den : Int) + b.num * (a.den : Int), a.den * b.den⟩

/-- Exact half of a fraction (the unrounded value of decimal `/ 2`). -/
def halfF (f : Frac) : Frac := ⟨f.num, f.den * 2⟩

/-- Python `price.quantize(Decimal("0.000001"))` at default rounding:
the value rounded to 6 decimal places, ties to even.  The result always has
denominator `10^6`, so structural equality of quantized prices coincides with
value equality — exactly how the Python dict keyed by quantized `Decimal`s
behaves. -/
def quant6F (f : Frac) : Frac := ⟨halfEvenF ⟨f.num * 1000000, f.den⟩, 1000000⟩

/-! Data model, from clob/models.py. -/

/-- OrderSide enum (models.py): BUY = "buy", SELL = "sell". -/
inductive OrderSide where
  | BUY
  | SELL
deriving DecidableEq, Repr

/-- OrderStatus enum (models.py).  `PART` stands for the source's PARTIAL
status (partially filled, still resting). -/
inductive OrderStatus where
  | OPEN
  | PART
  | FILLED
  | CANCELLED
  | EXPIRED
deriving DecidableEq, Repr

/-- FillStatus enum (models.py): PENDING, SETTLED, FAILED. -/
inductive FillStatus where
  | PENDING
  | SETTLED
  | FAILED
deriving DecidableEq, Repr

/-- An Order row (models.py).  `makerAmount`, `takerAmount` are the uint256
amounts (stored as decimal strings in the DB, converted with `int()` for all
arithmetic); `filledAmount` is the token units filled so far. -/
structure Order where
  id : Nat
  conditionId : String
  tokenId : String
  makerAddress : String
  makerAmount : Nat
  takerAmount : Nat
  expiration : Nat
  nonce : Nat
  feeRateBps : Nat
  side : OrderSide
  signer : String
  signature : String
  orderHash : String
  status : OrderStatus
  filledAmount : Int
deriving DecidableEq, Repr

/-- A Fill row (models.py).  `takerOrderId` is nullable in the schema;
`txHash` and `settledAt` are set only on settlement. -/
structure Fill where
  id : Nat
  makerOrderId : Nat
  takerOrderId : Option Nat
  makerAddress : String
  takerAddress : String
  tokenAmount : Int
  collateralAmount : Int
  fee : Int
  status : FillStatus
  txHash : Option String
  settledAt : Option String
deriving DecidableEq, Repr

/-! Matching engine, from clob/matching.py. -/

/-- MatchResult dataclass (matching.py:50). -/
structure MatchResult where
  makerOrderId : Nat
  takerOrderId : Nat
  makerAddress : String
  takerAddress : String
  tokenAmount : Int
  collateralAmount : Int
  fee : Int
  makerOrderExhausted : Bool
  takerOrderExhausted : Bool
deriving DecidableEq, Repr

/-- _buy_price (matching.py:68): `Decimal(maker_amount) / Decimal(taker_amount)`,
a context-rounded decimal division. -/
def buy_price (o : Order) : Frac := rnd28F ⟨(o.makerAmount : Int), o.takerAmount⟩

/-- _sell_price (matching.py:73): `Decimal(taker_amount) / Decimal(maker_amount)`. -/
def sell_price (o : Order) : Frac := rnd28F ⟨(o.takerAmount : Int), o.makerAmount⟩

/-- _remaining_tokens (matching.py:78): tokens still available on an order. -/
def remaining_tokens (o : Order) : Int :=
  match o.side with
  | OrderSide.BUY => (o.takerAmount : Int) - o.filledAmount
  | OrderSide.SELL => (o.makerAmount : Int) - o.filledAmount

/-- The break condition of the matching loop (matching.py:162-167): the
candidate no longer crosses the incoming order's price. -/
def noCross (isBuy : Bool) (new m : Order) : Bool :=
  if isBuy then Frac.vlt (buy_price new) (sell_price m)
  else Frac.vlt (buy_price m) (sell_price new)

/-- Construction of one MatchResult (matching.py:174-203): collateral is the
fill quantity times the maker's price, context-rounded then truncated toward
zero; the fee is Python floor division `(collateral * protocol_fee_bps) // 10_000`. -/
def mkMatchResult (new m : Order) (isBuy : Bool) (bps fill mrem tr : Int) : MatchResult :=
  let price := if isBuy then sell_price m else buy_price m
  let collateral := truncF (rnd28F (scaleIntF fill price))
  { makerOrderId := m.id
    takerOrderId := new.id
    makerAddress := m.makerAddress
    takerAddress := new.makerAddress
    tokenAmount := fill
    collateralAmount := collateral
    fee := Int.fdiv (collateral * bps) 10000
    makerOrderExhausted := decide (mrem ≤ fill)
    takerOrderExhausted := decide (tr ≤ fill) }

/-- The candidate loop of match_new_order (matching.py:155-205), with the
running taker-side remaining quantity as first explicit argument. -/
def matchLoop (new : Order) (isBuy : Bool) (bps : Int) : Int → List Order → List MatchResult
  | _, [] => []
  | takerRemaining, makerOrder :: rest =>
    if takerRemaining ≤ 0 then []
    else if noCross isBuy new makerOrder then []
    else if remaining_tokens makerOrder ≤ 0 then matchLoop new isBuy bps takerRemaining rest
    else
      mkMatchResult new makerOrder isBuy bps
          (min takerRemaining (remaining_tokens makerOrder)) (remaining_tokens makerOrder)
          takerRemaining
        :: matchLoop new isBuy bps
            (takerRemaining - min takerRemaining (remaining_tokens makerOrder)) rest

/-- Opposite side of an order side. -/
def oppositeSide : OrderSide → OrderSide
  | OrderSide.BUY => OrderSide.SELL
  | OrderSide.SELL => OrderSide.BUY

/-- The resting-order query of match_new_order (matching.py:116-145): orders of
the opposite side for the same market and token with status OPEN or PARTIAL. -/
def restingFilter (store : List Order) (new : Order) : List Order :=
  store.filter (fun o =>
    o.conditionId == new.conditionId && o.tokenId == new.tokenId &&
    o.side == oppositeSide new.side &&
    (o.status == OrderStatus.OPEN || o.status == OrderStatus.PART))

/-- Stable insertion of `x` after every element `y` with `le y x`. -/
def insertLE {α : Type} (le : α → α → Bool) (x : α) : List α → List α
  | [] => [x]
  | y :: ys => if le y x then y :: insertLE le x ys else x :: y :: ys

/-- Stable sort by a boolean total preorder, modelling Python's stable
`sorted`. -/
def stableSortBy {α : Type} (le : α → α → Bool) (l : List α) : List α :=
  l.foldl (fun acc x => insertLE le x acc) []

/-- The sort key of matching.py:148-151: ascending by maker price — the sell
price for an incoming BUY, descending buy price for an incoming SELL — with
ties broken by ascending order id. -/
def priorityLE (isBuy : Bool) (a b : Order) : Bool :=
  if isBuy then
    Frac.vlt (sell_price a) (sell_price b) ||
      (Frac.veq (sell_price a) (sell_price b) && decide (a.id ≤ b.id))
  else
    Frac.vlt (buy_price b) (buy_price a) ||
      (Frac.veq (buy_price a) (buy_price b) && decide (a.id ≤ b.id))

/-- The Python `sorted(resting_orders_raw, key=...)` call (matching.py:148-151). -/
def sortResting (isBuy : Bool) (l : List Order) : List Order :=
  stableSortBy (priorityLE isBuy) l

/-- match_new_order (matching.py:90-207) over a snapshot `store` of the orders
table.  `bps` is the protocol_fee_bps parameter (default 50 in the source;
service.py:141 calls the function without overriding it). -/
def match_new_order (store : List Order) (new : Order) (bps : Int) : List MatchResult :=
  if remaining_tokens new ≤ 0 then []
  else
    matchLoop new (new.side == OrderSide.BUY) bps (remaining_tokens new)
      (sortResting (new.side == OrderSide.BUY) (restingFilter store new))

/-! Order-book aggregation, from matching.py:214-286. -/

/-- AggregatedLevel dataclass (matching.py:214). -/
structure AggregatedLevel where
  price : Frac
  size : Int
  order_count : Nat
deriving DecidableEq, Repr

/-- Accumulation of one order into an existing price level
(matching.py:258-259, 264-265): the size grows by the order's remaining
quantity and the order count by one. -/
def bumpLevel (rem : Int) (l : AggregatedLevel) : AggregatedLevel :=
  { l with size := l.size + rem, order_count := l.order_count + 1 }

/-- Updating the price-level dict with one order's remaining quantity
(matching.py:254-265): an existing level accumulates size and order count, a
new price appends a fresh level (Python dicts preserve insertion order). -/
def addLevel (levels : List AggregatedLevel) (p : Frac) (rem : Int) : List AggregatedLevel :=
  if levels.any (fun l => l.price == p) then
    levels.map (fun l => if l.price == p then bumpLevel rem l else l)
  else levels ++ [⟨p, rem, 1⟩]

/-- One iteration of the aggregation loop of get_orderbook_snapshot
(matching.py:250-265): an order with no remaining quantity is skipped,
otherwise its remaining quantity is merged into the BUY or SELL level dict at
its quantized price. -/
def buildStep (acc : List AggregatedLevel × List AggregatedLevel) (o : Order) :
    List AggregatedLevel × List AggregatedLevel :=
  if remaining_tokens o ≤ 0 then acc
  else
    match o.side with
    | OrderSide.BUY => (addLevel acc.1 (quant6F (buy_price o)) (remaining_tokens o), acc.2)
    | OrderSide.SELL => (acc.1, addLevel acc.2 (quant6F (sell_price o)) (remaining_tokens o))

/-- The aggregation loop of get_orderbook_snapshot (matching.py:250-265),
building the BUY and SELL level dicts in one pass over the orders. -/
def buildLevels (orders : List Order) : List AggregatedLevel × List AggregatedLevel :=
  orders.foldl buildStep ([], [])

/-- Descending-price key for bids (matching.py:267, `key=lambda x: -x.price`). -/
def levelDescLE (a b : AggregatedLevel) : Bool := Frac.vle b.price a.price

/-- Ascending-price key for asks (matching.py:268). -/
def levelAscLE (a b : AggregatedLevel) : Bool := Frac.vle a.price b.price

/-- The orders selected by the snapshot query (matching.py:233-242). -/
def bookFilter (store : List Order) (conditionId tokenId : String) : List Order :=
  store.filter (fun o =>
    o.conditionId == conditionId && o.tokenId == tokenId &&
    (o.status == OrderStatus.OPEN || o.status == OrderStatus.PART))

/-- Return value of get_orderbook_snapshot.  The source formats prices and
sizes as strings for the wire; the model keeps the underlying values, with
`mid_price : Option Frac` capturing the `None`-vs-value distinction. -/
structure OrderbookSnapshot where
  bids : List AggregatedLevel
  asks : List AggregatedLevel
  mid_price : Option Frac
deriving DecidableEq, Repr

/-- get_orderbook_snapshot (matching.py:221-286): aggregate resting orders
into price levels, sort bids descending and asks ascending, truncate to
`depth`, and compute the mid price `(best_bid + best_ask) / 2` (two decimal
operations, each context-rounded) quantized to 6 places — only when both
sides are non-empty. -/
def get_orderbook_snapshot (store : List Order) (conditionId tokenId : String) (depth : Nat) :
    OrderbookSnapshot :=
  let orders := bookFilter store conditionId tokenId
  let levels := buildLevels orders
  let bids := (stableSortBy levelDescLE levels.1).take depth
  let asks := (stableSortBy levelAscLE levels.2).take depth
  let mid : Option Frac :=
    match bids, asks with
    | b :: _, a :: _ => some (quant6F (rnd28F (halfF (rnd28F (addF b.price a.price)))))
    | _, _ => none
  { bids := bids, asks := asks, mid_price := mid }

/-! Order lifecycle service, from clob/service.py, and the settlement task,
from tasks/settlement_tasks.py.  The external collaborators (signature
recovery, order hashing, the chain executor) are passed in as their results. -/

/-- Error taxonomy of the service layer (service.py raises ValueError with
these distinct causes). -/
inductive ClobError where
  | invalidSignature
  | duplicateHash
  | notFound
  | invalidState (status : OrderStatus)
deriving DecidableEq, Repr

/-- The persistent store as seen by the service: the orders and fills tables. -/
structure ClobState where
  orders : List Order
  fills : List Fill
deriving DecidableEq, Repr

/-- _apply_match (service.py:168-213): persist one PENDING Fill and update
both orders' filled amount and status (FILLED when exhausted, else PARTIAL). -/
def apply_match (st : ClobState) (m : MatchResult) (fillId : Nat) : ClobState :=
  let fill : Fill :=
    { id := fillId
      makerOrderId := m.makerOrderId
      takerOrderId := some m.takerOrderId
      makerAddress := m.makerAddress
      takerAddress := m.takerAddress
      tokenAmount := m.tokenAmount
      collateralAmount := m.collateralAmount
      fee := m.fee
      status := FillStatus.PENDING
      txHash := none
      settledAt := none }
  let orders := st.orders.map (fun o =>
    if o.id == m.makerOrderId then
      { o with filledAmount := o.filledAmount + m.tokenAmount
               status := if m.makerOrderExhausted then OrderStatus.FILLED else OrderStatus.PART }
    else if o.id == m.takerOrderId then
      { o with filledAmount := o.filledAmount + m.tokenAmount
               status := if m.takerOrderExhausted then OrderStatus.FILLED else OrderStatus.PART }
    else o)
  { orders := orders, fills := st.fills ++ [fill] }

/-- Application of all match results in order (service.py:144-148), with
consecutive fill ids from the autoincrement counter. -/
def apply_matches (st : ClobState) (ms : List MatchResult) (nextFillId : Nat) : ClobState :=
  (ms.foldl (fun acc m => (apply_match acc.1 m acc.2, acc.2 + 1)) (st, nextFillId)).1

/-- submit_order (service.py:63-165).  `sigOk` is the outcome of the external
EIP-712 signature verification, `orderHash` the canonical hash obtained from
the chain service, `newId` the autoincrement id of the new row and
`nextFillId` the next fill id.  An invalid signature and a duplicate hash are
rejected before any row is created (the error return carries no state); on
success the order is persisted OPEN with filled_amount 0, matched with the
engine at the default 50 bps protocol fee, and all match results are applied. -/
def submit_order (st : ClobState) (payload : Order) (sigOk : Bool) (orderHash : String)
    (newId nextFillId : Nat) : Except ClobError ClobState :=
  if !sigOk then Except.error ClobError.invalidSignature
  else if st.orders.any (fun o => o.orderHash == orderHash) then
    Except.error ClobError.duplicateHash
  else
    let order := { payload with
      id := newId
      orderHash := orderHash
      status := OrderStatus.OPEN
      filledAmount := 0 }
    let st1 : ClobState := { st with orders := st.orders ++ [order] }
    let matchResults := match_new_order st1.orders order 50
    Except.ok (apply_matches st1 matchResults nextFillId)

/-- cancel_order (service.py:220-249).  The row is looked up by id and maker
address; a missing row is a not-found error, a terminal status an
invalid-state error; otherwise the status is set to CANCELLED locally.
`chainOk` is the outcome of the best-effort on-chain cancellation, whose
failure is swallowed (service.py:243-247) — the returned state does not
depend on it. -/
def cancel_order (orders : List Order) (orderId : Nat) (makerAddress : String)
    (chainOk : Bool) : Except ClobError (List Order) :=
  match orders.find? (fun o => o.id == orderId && o.makerAddress == makerAddress) with
  | none => Except.error ClobError.notFound
  | some o =>
    if o.status == OrderStatus.FILLED || o.status == OrderStatus.CANCELLED ||
        o.status == OrderStatus.EXPIRED then
      Except.error (ClobError.invalidState o.status)
    else
      Except.ok (orders.map (fun p =>
        if p.id == orderId && p.makerAddress == makerAddress then
          { p with status := OrderStatus.CANCELLED }
        else p))

/-- The preparation loop of _settle_condition_fills (settlement_tasks.py:
116-167): for each (fill, maker order) pair whose taker order loads, the fill
id is appended to the batch (the corresponding order structs and signatures
are appended alongside in the source; a fill whose taker order is missing is
skipped with `continue`). -/
def collectFillIds (getOrder : Nat → Option Order)
    (fillsData : List (Fill × Order)) : List Nat :=
  fillsData.foldl
    (fun acc fm =>
      match fm.1.takerOrderId with
      | none => acc
      | some tid =>
        match getOrder tid with
        | none => acc
        | some _ => acc ++ [fm.1.id])
    []

/-- _settle_condition_fills (settlement_tasks.py:97-213).  `fillsData` is the
list of (fill, maker order) pairs for one condition, `getOrder` models
`db.get(Order, id)`, `chainResult` the outcome of the single
`chain.fill_orders` batch call (`some tx` on success, `none` on failure), and
`now` the settlement timestamp.  Fills whose taker order cannot be loaded are
skipped; if nothing remains the function returns without touching the table;
otherwise on success every batched fill becomes SETTLED with the shared
transaction hash and timestamp, on failure every batched fill becomes
FAILED. -/
def settle_condition_fills (getOrder : Nat → Option Order)
    (fillsData : List (Fill × Order)) (chainResult : Option String) (now : String)
    (fills : List Fill) : List Fill :=
  let fillIds : List Nat := collectFillIds getOrder fillsData
  if fillIds.isEmpty then fills
  else
    match chainResult with
    | some tx => fills.map (fun f =>
        if f.id ∈ fillIds then
          { f with status := FillStatus.SETTLED, txHash := some tx, settledAt := some now }
        else f)
    | none => fills.map (fun f =>
        if f.id ∈ fillIds then { f with status := FillStatus.FAILED } else f)

/-! Derived observation functions used to state properties of the aggregation,
and sample data used by the concrete witnesses below. -/

/-- Total size recorded in a level list at price key `p`. -/
def sizeAt (lvs : List AggregatedLevel) (p : Frac) : Int :=
  ((lvs.filter (fun l => l.price == p)).map (fun l => l.size)).sum

/-- Total order count recorded in a level list at price key `p`. -/
def countAt (lvs : List AggregatedLevel) (p : Frac) : Nat :=
  ((lvs.filter (fun l => l.price == p)).map (fun l => l.order_count)).sum

/-- Number of levels carrying price key `p` (the dict invariant is that this
is at most one). -/
def keyCount (lvs : List AggregatedLevel) (p : Frac) : Nat :=
  (lvs.filter (fun l => l.price == p)).length

/-- The BUY orders of a snapshot input that aggregate into the price level
`p`: positive remaining quantity and quantized buy price equal to `p`. -/
def buyGroup (orders : List Order) (p : Frac) : List Order :=
  orders.filter (fun o =>
    o.side == OrderSide.BUY && decide (0 < remaining_tokens o) &&
      (quant6F (buy_price o) == p))

/-- The SELL orders of a snapshot input that aggregate into the price level
`p`. -/
def sellGroup (orders : List Order) (p : Frac) : List Order :=
  orders.filter (fun o =>
    o.side == OrderSide.SELL && decide (0 < remaining_tokens o) &&
      (quant6F (sell_price o) == p))

/-- Sample order used by the concrete witnesses: market "c", token "t",
maker address "a", zero fee rate, status OPEN, nothing filled. -/
def sampleOrder (i : Nat) (s : OrderSide) (ma ta : Nat) : Order :=
  { id := i, conditionId := "c", tokenId := "t", makerAddress := "a",
    makerAmount := ma, takerAmount := ta, expiration := 0, nonce := 0,
    feeRateBps := 0, side := s, signer := "z", signature := "sg",
    orderHash := "h", status := OrderStatus.OPEN, filledAmount := 0 }

/-- Sample PENDING fill used by the settlement witnesses. -/
def sampleFill (i : Nat) (takerId : Option Nat) : Fill :=
  { id := i, makerOrderId := 1, takerOrderId := takerId, makerAddress := "a",
    takerAddress := "b", tokenAmount := 10, collateralAmount := 5, fee := 0,
    status := FillStatus.PENDING, txHash := none, settledAt := none }

/-- Concrete maker for the C1 witness: resting SELL of 2 tokens at price 1/2. -/
def c1maker : Order := sampleOrder 1 OrderSide.SELL 2 1

/-- Concrete taker for the C1 witness: incoming BUY of 5 tokens at price 1. -/
def c1taker : Order := sampleOrder 2 OrderSide.BUY 5 5

/-- The match result produced for the C1 witness pair. -/
def c1res : MatchResult :=
  { makerOrderId := 1, takerOrderId := 2, makerAddress := "a", takerAddress := "a",
    tokenAmount := 2, collateralAmount := 1, fee := 0,
    makerOrderExhausted := true, takerOrderExhausted := false }

/-- The match result produced for the C4 witness pair (1000 tokens at price 1,
protocol fee 50 bps on the 1000 collateral). -/
def c4res : MatchResult :=
  { makerOrderId := 1, takerOrderId := 2, makerAddress := "a", takerAddress := "a",
    tokenAmount := 1000, collateralAmount := 1000, fee := 5,
    makerOrderExhausted := true, takerOrderExhausted := true }

/-- Payload of the C5 witness submission. -/
def c5payload : Order := sampleOrder 0 OrderSide.BUY 5 5

/-- Store state after the first successful C5 submission. -/
def c5state : ClobState :=
  ⟨[{ c5payload with
      id := 1
      orderHash := "hsh"
      status := OrderStatus.OPEN
      filledAmount := 0 }], []⟩

/-- Lookup function of the C6 witness: only order id 1 exists. -/
def c6getOrder : Nat → Option Order :=
  fun i => if i == 1 then some (sampleOrder 1 OrderSide.BUY 5 5) else none

/-- Pending fills of the C6 witness batch. -/
def c6fills : List Fill := [sampleFill 10 (some 1), sampleFill 11 (some 1), sampleFill 12 (some 1)]

/-- The (fill, maker order) pairs handed to the C6 settlement batch. -/
def c6fillsData : List (Fill × Order) :=
  [(sampleFill 10 (some 1), sampleOrder 1 OrderSide.BUY 5 5),
   (sampleFill 11 (some 1), sampleOrder 1 OrderSide.BUY 5 5),
   (sampleFill 12 (some 1), sampleOrder 1 OrderSide.BUY 5 5)]

/-- The first fill of the C6 witness batch after successful settlement. -/
def c6settledFill : Fill :=
  { sampleFill 10 (some 1) with
    status := FillStatus.SETTLED
    txHash := some "0xT"
    settledAt := some "t0" }

/-- Store for the C7 witness: two resting BUY orders at the same quantized
price 0.5 (remaining 2 and 4) and one SELL at 1. -/
def c7store : List Order :=
  [sampleOrder 1 OrderSide.BUY 1 2, sampleOrder 2 OrderSide.BUY 2 4,
   sampleOrder 3 OrderSide.SELL 1 1]

/-- An already cancelled order, for C9. -/
def c9order : Order := { sampleOrder 1 OrderSide.BUY 5 5 with status := OrderStatus.CANCELLED }

/-- Concrete non-crossing candidate for the C2 witness: resting SELL at 0.35. -/
def c2c : Order := sampleOrder 1 OrderSide.SELL 100 35

/-- Concrete incoming BUY at 0.30 for the C2 witness. -/
def c2new : Order := sampleOrder 2 OrderSide.BUY 3 10

/-- Concrete maker with remaining 10 for the C3 witness (SELL at 0.5). -/
def c3maker : Order := sampleOrder 1 OrderSide.SELL 10 5

/-- Concrete taker wanting 15 for the C3 witness (BUY at 1). -/
def c3new : Order := sampleOrder 2 OrderSide.BUY 15 15

/-! Basic facts about the decimal model. -/

theorem Frac.vlt_iff {a b : Frac} (ha : 0 < a.den) (hb : 0 < b.den) :
    a.vlt b = true ↔ a.val < b.val := by
  have ha' : (0 : ℚ) < (a.den : ℚ) := by exact_mod_cast ha
  have hb' : (0 : ℚ) < (b.den : ℚ) := by exact_mod_cast hb
  rw [Frac.vlt, decide_eq_true_eq, Frac.val, Frac.val, div_lt_div_iff ha' hb']
  constructor
  · intro h; exact_mod_cast h
  · intro h; exact_mod_cast h

theorem Frac.vle_iff {a b : Frac} (ha : 0 < a.den) (hb : 0 < b.den) :
    a.vle b = true ↔ a.val ≤ b.val := by
  have ha' : (0 : ℚ) < (a.den : ℚ) := by exact_mod_cast ha
  have hb' : (0 : ℚ) < (b.den : ℚ) := by exact_mod_cast hb
  rw [Frac.vle, decide_eq_true_eq, Frac.val, Frac.val, div_le_div_iff ha' hb']
  constructor
  · intro h; exact_mod_cast h
  · intro h; exact_mod_cast h

theorem Frac.veq_iff {a b : Frac} (ha : 0 < a.den) (hb : 0 < b.den) :
    a.veq b = true ↔ a.val = b.val := by
  have ha' : ((a.den : ℚ)) ≠ 0 := by positivity
  have hb' : ((b.den : ℚ)) ≠ 0 := by positivity
  rw [Frac.veq, decide_eq_true_eq, Frac.val, Frac.val, div_eq_div_iff ha' hb']
  constructor
  · intro h; exact_mod_cast h
  · intro h; exact_mod_cast h

theorem fdiv_eq_floor (n : Int) (d : Nat) (hd : 0 < d) :
    Int.fdiv n (d : Int) = ⌊(n : ℚ) / (d : ℚ)⌋ := by
  rw [Rat.floor_intCast_div_natCast]
  exact Int.fdiv_eq_ediv n (Int.natCast_nonneg d)

theorem truncF_eq_floor {f : Frac} (h : 0 ≤ f.num) (hd : 0 < f.den) :
    truncF f = ⌊f.val⌋ := by
  rw [truncF, if_pos h, Frac.val]
  exact fdiv_eq_floor f.num f.den hd

theorem halfEvenF_nonneg {f : Frac} (h : 0 ≤ f.num) : 0 ≤ halfEvenF f := by
  have hq : 0 ≤ Int.fdiv f.num (f.den : Int) := Int.fdiv_nonneg h (Int.natCast_nonneg _)
  rw [halfEvenF]
  split
  · exact hq
  · split
    · omega
    · split <;> omega

theorem rnd28F_den_pos (f : Frac) : 0 < (rnd28F f).den := by
  simp only [rnd28F]
  split
  · exact one_pos
  · split
    · exact one_pos
    · positivity

theorem rnd28F_num_nonneg (f : Frac) : 0 ≤ (rnd28F f).num := by
  simp only [rnd28F]
  split
  · exact le_refl 0
  · rename_i hnum
    split
    · exact mul_nonneg (halfEvenF_nonneg (show (0:Int) ≤ f.num by omega)) (Int.natCast_nonneg _)
    · exact halfEvenF_nonneg
        (show (0:Int) ≤ f.num * ((10 ^ (-(decExpF f - 27)).toNat : Nat) : Int) from
          mul_nonneg (by omega) (Int.natCast_nonneg _))

theorem scaleIntF_val (k : Int) (f : Frac) : (scaleIntF k f).val = (k : ℚ) * f.val := by
  simp only [scaleIntF, Frac.val]
  push_cast
  ring

/-! Projections of a constructed match result. -/

theorem mkMatchResult_makerOrderId (new m : Order) (isBuy : Bool) (bps fill mrem tr : Int) :
    (mkMatchResult new m isBuy bps fill mrem tr).makerOrderId = m.id := rfl

theorem mkMatchResult_tokenAmount (new m : Order) (isBuy : Bool) (bps fill mrem tr : Int) :
    (mkMatchResult new m isBuy bps fill mrem tr).tokenAmount = fill := rfl

theorem mkMatchResult_collateralAmount (new m : Order) (isBuy : Bool) (bps fill mrem tr : Int) :
    (mkMatchResult new m isBuy bps fill mrem tr).collateralAmount =
      truncF (rnd28F (scaleIntF fill (if isBuy then sell_price m else buy_price m))) := rfl

theorem mkMatchResult_fee (new m : Order) (isBuy : Bool) (bps fill mrem tr : Int) :
    (mkMatchResult new m isBuy bps fill mrem tr).fee =
      Int.fdiv ((mkMatchResult new m isBuy bps fill mrem tr).collateralAmount * bps) 10000 := rfl

theorem mkMatchResult_makerExhausted (new m : Order) (isBuy : Bool) (bps fill mrem tr : Int) :
    (mkMatchResult new m isBuy bps fill mrem tr).makerOrderExhausted = decide (mrem ≤ fill) := rfl

theorem mkMatchResult_takerExhausted (new m : Order) (isBuy : Bool) (bps fill mrem tr : Int) :
    (mkMatchResult new m isBuy bps fill mrem tr).takerOrderExhausted = decide (tr ≤ fill) := rfl

/-! The stable sort: permutation and sortedness. -/

theorem insertLE_perm {α : Type} (le : α → α → Bool) (x : α) (l : List α) :
    (insertLE le x l).Perm (x :: l) := by
  induction l with
  | nil => simp [insertLE]
  | cons y ys ih =>
    rw [insertLE]
    split
    · exact (ih.cons y).trans (List.Perm.swap x y ys)
    · exact List.Perm.refl _

theorem mem_insertLE {α : Type} {le : α → α → Bool} {x y : α} {l : List α} :
    y ∈ insertLE le x l ↔ y = x ∨ y ∈ l := by
  rw [(insertLE_perm le x l).mem_iff]
  simp

theorem foldl_insertLE_perm {α : Type} (le : α → α → Bool) :
    ∀ (l acc : List α), (l.foldl (fun a x => insertLE le x a) acc).Perm (acc ++ l) := by
  intro l
  induction l with
  | nil => intro acc; simp
  | cons x xs ih =>
    intro acc
    rw [List.foldl_cons]
    refine (ih (insertLE le x acc)).trans ?_
    refine (List.Perm.append_right xs (insertLE_perm le x acc)).trans ?_
    exact List.perm_middle.symm

theorem stableSortBy_perm {α : Type} (le : α → α → Bool) (l : List α) :
    (stableSortBy le l).Perm l := by
  have h := foldl_insertLE_perm le l []
  simpa [stableSortBy] using h

theorem mem_stableSortBy {α : Type} {le : α → α → Bool} {l : List α} {x : α} :
    x ∈ stableSortBy le l ↔ x ∈ l :=
  (stableSortBy_perm le l).mem_iff

theorem insertLE_pairwise {α : Type} (le : α → α → Bool) (P : α → Prop)
    (htrans : ∀ a b c, P a → P b → P c → le a b = true → le b c = true → le a c = true)
    (htot : ∀ a b, P a → P b → le a b = true ∨ le b a = true)
    {x : α} (hx : P x) :
    ∀ {l : List α}, (∀ y ∈ l, P y) → l.Pairwise (fun a b => le a b = true) →
      (insertLE le x l).Pairwise (fun a b => le a b = true) := by
  intro l
  induction l with
  | nil =>
    intro _ _
    simp [insertLE]
  | cons y ys ih =>
    intro hP hpw
    rcases List.pairwise_cons.mp hpw with ⟨hy, hys⟩
    rw [insertLE]
    split
    · rename_i hle
      refine List.pairwise_cons.mpr ⟨?_, ih (fun z hz => hP z (List.mem_cons_of_mem _ hz)) hys⟩
      intro z hz
      rcases mem_insertLE.mp hz with rfl | hz'
      · exact hle
      · exact hy z hz'
    · rename_i hle
      have hxy : le x y = true := by
        rcases htot x y hx (hP y (List.mem_cons_self y ys)) with h | h
        · exact h
        · exact absurd h hle
      refine List.pairwise_cons.mpr ⟨?_, hpw⟩
      intro z hz
      rcases List.mem_cons.mp hz with rfl | hz'
      · exact hxy
      · exact htrans x y z hx (hP y (List.mem_cons_self y ys))
          (hP z (List.mem_cons_of_mem _ hz')) hxy (hy z hz')

theorem foldl_insertLE_pairwise {α : Type} (le : α → α → Bool) (P : α → Prop)
    (htrans : ∀ a b c, P a → P b → P c → le a b = true → le b c = true → le a c = true)
    (htot : ∀ a b, P a → P b → le a b = true ∨ le b a = true) :
    ∀ (l acc : List α), (∀ y ∈ l, P y) → (∀ y ∈ acc, P y) →
      acc.Pairwise (fun a b => le a b = true) →
      (l.foldl (fun a x => insertLE le x a) acc).Pairwise (fun a b => le a b = true) := by
  intro l
  induction l with
  | nil =>
    intro acc _ _ hacc
    simpa using hacc
  | cons x xs ih =>
    intro acc hl hacc hpw
    rw [List.foldl_cons]
    refine ih (insertLE le x acc) (fun y hy => hl y (List.mem_cons_of_mem _ hy)) ?_ ?_
    · intro y hy
      rcases mem_insertLE.mp hy with rfl | hy'
      · exact hl y (List.mem_cons_self _ _)
      · exact hacc y hy'
    · exact insertLE_pairwise le P htrans htot (hl x (List.mem_cons_self _ _)) hacc hpw

theorem stableSortBy_pairwise {α : Type} (le : α → α → Bool) (P : α → Prop)
    (htrans : ∀ a b c, P a → P b → P c → le a b = true → le b c = true → le a c = true)
    (htot : ∀ a b, P a → P b → le a b = true ∨ le b a = true)
    (l : List α) (hl : ∀ y ∈ l, P y) :
    (stableSortBy le l).Pairwise (fun a b => le a b = true) := by
  have h := foldl_insertLE_pairwise le P htrans htot l [] hl (by simp) List.Pairwise.nil
  simpa [stableSortBy] using h

/-! The price-time priority key is a total preorder. -/

theorem sell_price_den_pos (o : Order) : 0 < (sell_price o).den := rnd28F_den_pos _

theorem buy_price_den_pos (o : Order) : 0 < (buy_price o).den := rnd28F_den_pos _

theorem priorityLE_false_eq (a b : Order) :
    priorityLE false a b =
      ((buy_price b).vlt (buy_price a) ||
        ((buy_price a).veq (buy_price b) && decide (a.id ≤ b.id))) := rfl

theorem priorityLE_true_eq (a b : Order) :
    priorityLE true a b =
      ((sell_price a).vlt (sell_price b) ||
        ((sell_price a).veq (sell_price b) && decide (a.id ≤ b.id))) := rfl

theorem priorityLE_total (isBuy : Bool) (a b : Order) :
    priorityLE isBuy a b = true ∨ priorityLE isBuy b a = true := by
  cases isBuy <;>
    simp only [priorityLE_false_eq, priorityLE_true_eq, Bool.or_eq_true,
      Bool.and_eq_true, decide_eq_true_eq, Frac.vlt, Frac.veq] <;>
    rcases Nat.le_total a.id b.id with hid | hid
  case false.inl =>
    rcases lt_trichotomy ((buy_price b).num * ((buy_price a).den : Int))
        ((buy_price a).num * ((buy_price b).den : Int)) with h | h | h
    · exact Or.inl (Or.inl (by exact_mod_cast h))
    · exact Or.inl (Or.inr ⟨by exact_mod_cast h.symm, hid⟩)
    · exact Or.inr (Or.inl (by exact_mod_cast h))
  case false.inr =>
    rcases lt_trichotomy ((buy_price b).num * ((buy_price a).den : Int))
        ((buy_price a).num * ((buy_price b).den : Int)) with h | h | h
    · exact Or.inl (Or.inl (by exact_mod_cast h))
    · exact Or.inr (Or.inr ⟨by exact_mod_cast h, hid⟩)
    · exact Or.inr (Or.inl (by exact_mod_cast h))
  case true.inl =>
    rcases lt_trichotomy ((sell_price a).num * ((sell_price b).den : Int))
        ((sell_price b).num * ((sell_price a).den : Int)) with h | h | h
    · exact Or.inl (Or.inl (by exact_mod_cast h))
    · exact Or.inl (Or.inr ⟨by exact_mod_cast h, hid⟩)
    · exact Or.inr (Or.inl (by exact_mod_cast h))
  case true.inr =>
    rcases lt_trichotomy ((sell_price a).num * ((sell_price b).den : Int))
        ((sell_price b).num * ((sell_price a).den : Int)) with h | h | h
    · exact Or.inl (Or.inl (by exact_mod_cast h))
    · exact Or.inr (Or.inr ⟨by exact_mod_cast h.symm, hid⟩)
    · exact Or.inr (Or.inl (by exact_mod_cast h))

theorem priorityLE_trans (isBuy : Bool) (a b c : Order)
    (hab : priorityLE isBuy a b = true) (hbc : priorityLE isBuy b c = true) :
    priorityLE isBuy a c = true := by
  cases isBuy
  · simp only [priorityLE_false_eq, Bool.or_eq_true, Bool.and_eq_true,
      decide_eq_true_eq] at hab hbc ⊢
    rw [Frac.vlt_iff (buy_price_den_pos b) (buy_price_den_pos a),
      Frac.veq_iff (buy_price_den_pos a) (buy_price_den_pos b)] at hab
    rw [Frac.vlt_iff (buy_price_den_pos c) (buy_price_den_pos b),
      Frac.veq_iff (buy_price_den_pos b) (buy_price_den_pos c)] at hbc
    rw [Frac.vlt_iff (buy_price_den_pos c) (buy_price_den_pos a),
      Frac.veq_iff (buy_price_den_pos a) (buy_price_den_pos c)]
    rcases hab with h1 | ⟨h1, hid1⟩ <;> rcases hbc with h2 | ⟨h2, hid2⟩
    · exact Or.inl (h2.trans h1)
    · exact Or.inl (by rw [← h2]; exact h1)
    · exact Or.inl (by rw [h1]; exact h2)
    · exact Or.inr ⟨h1.trans h2, hid1.trans hid2⟩
  · simp only [priorityLE_true_eq, Bool.or_eq_true, Bool.and_eq_true,
      decide_eq_true_eq] at hab hbc ⊢
    rw [Frac.vlt_iff (sell_price_den_pos a) (sell_price_den_pos b),
      Frac.veq_iff (sell_price_den_pos a) (sell_price_den_pos b)] at hab
    rw [Frac.vlt_iff (sell_price_den_pos b) (sell_price_den_pos c),
      Frac.veq_iff (sell_price_den_pos b) (sell_price_den_pos c)] at hbc
    rw [Frac.vlt_iff (sell_price_den_pos a) (sell_price_den_pos c),
      Frac.veq_iff (sell_price_den_pos a) (sell_price_den_pos c)]
    rcases hab with h1 | ⟨h1, hid1⟩ <;> rcases hbc with h2 | ⟨h2, hid2⟩
    · exact Or.inl (h1.trans h2)
    · exact Or.inl (by rw [← h2]; exact h1)
    · exact Or.inl (by rw [h1]; exact h2)
    · exact Or.inr ⟨h1.trans h2, hid1.trans hid2⟩

/-! Structure of the matching loop. -/

theorem matchLoop_mem {new : Order} {isBuy : Bool} {bps : Int} :
    ∀ {l : List Order} {r : Int} {res : MatchResult}, res ∈ matchLoop new isBuy bps r l →
      ∃ m ∈ l, 0 < remaining_tokens m ∧ noCross isBuy new m = false ∧
        ∃ tr : Int, 0 < tr ∧ tr ≤ r ∧
          res = mkMatchResult new m isBuy bps (min tr (remaining_tokens m))
                  (remaining_tokens m) tr := by
  intro l
  induction l with
  | nil =>
    intro r res h
    simp [matchLoop] at h
  | cons m rest ih =>
    intro r res h
    rw [matchLoop] at h
    by_cases h0 : r ≤ 0
    · rw [if_pos h0] at h; simp at h
    rw [if_neg h0] at h
    by_cases hnc : noCross isBuy new m = true
    · rw [if_pos hnc] at h; simp at h
    rw [if_neg hnc] at h
    by_cases hrem : remaining_tokens m ≤ 0
    · rw [if_pos hrem] at h
      obtain ⟨m', hm', hrem', hnc', tr, htr, hle, heq⟩ := ih h
      exact ⟨m', List.mem_cons_of_mem _ hm', hrem', hnc', tr, htr, hle, heq⟩
    rw [if_neg hrem] at h
    rcases List.mem_cons.mp h with rfl | htail
    · exact ⟨m, List.mem_cons_self _ _, by omega, Bool.not_eq_true _ ▸ hnc, r, by omega,
        le_refl r, rfl⟩
    · obtain ⟨m', hm', hrem', hnc', tr, htr, hle, heq⟩ := ih htail
      refine ⟨m', List.mem_cons_of_mem _ hm', hrem', hnc', tr, htr, ?_, heq⟩
      omega

theorem matchLoop_sum (new : Order) (isBuy : Bool) (bps : Int) :
    ∀ (l : List Order) (r : Int),
      ((matchLoop new isBuy bps r l).map (fun res => res.tokenAmount)).sum ≤ max r 0 := by
  intro l
  induction l with
  | nil =>
    intro r
    simp [matchLoop]
  | cons m rest ih =>
    intro r
    rw [matchLoop]
    by_cases h0 : r ≤ 0
    · rw [if_pos h0]; simp
    rw [if_neg h0]
    by_cases hnc : noCross isBuy new m = true
    · rw [if_pos hnc]; simp
    rw [if_neg hnc]
    by_cases hrem : remaining_tokens m ≤ 0
    · rw [if_pos hrem]; exact ih r
    rw [if_neg hrem]
    rw [List.map_cons, List.sum_cons, mkMatchResult_tokenAmount]
    have h2 := ih (r - min r (remaining_tokens m))
    omega

theorem matchLoop_nodup (new : Order) (isBuy : Bool) (bps : Int) :
    ∀ (l : List Order) (r : Int), (l.map (fun o => o.id)).Nodup →
      ((matchLoop new isBuy bps r l).map (fun res => res.makerOrderId)).Nodup := by
  intro l
  induction l with
  | nil =>
    intro r _
    simp [matchLoop]
  | cons m rest ih =>
    intro r hnd
    rw [List.map_cons, List.nodup_cons] at hnd
    rw [matchLoop]
    by_cases h0 : r ≤ 0
    · rw [if_pos h0]; simp
    rw [if_neg h0]
    by_cases hnc : noCross isBuy new m = true
    · rw [if_pos hnc]; simp
    rw [if_neg hnc]
    by_cases hrem : remaining_tokens m ≤ 0
    · rw [if_pos hrem]; exact ih r hnd.2
    rw [if_neg hrem]
    rw [List.map_cons, List.nodup_cons, mkMatchResult_makerOrderId]
    refine ⟨?_, ih _ hnd.2⟩
    intro hmem
    rcases List.mem_map.mp hmem with ⟨res', hres', hid⟩
    obtain ⟨m', hm', _, _, _, _, _, heq⟩ := matchLoop_mem hres'
    apply hnd.1
    rw [List.mem_map]
    refine ⟨m', hm', ?_⟩
    rw [← hid, heq, mkMatchResult_makerOrderId]

theorem matchLoop_break {new : Order} {isBuy : Bool} {bps : Int} {c : Order}
    (hc : noCross isBuy new c = true) :
    ∀ (l₁ l₂ : List Order) (r : Int),
      matchLoop new isBuy bps r (l₁ ++ c :: l₂) = matchLoop new isBuy bps r l₁ := by
  intro l₁
  induction l₁ with
  | nil =>
    intro l₂ r
    rw [List.nil_append, matchLoop, matchLoop]
    by_cases h0 : r ≤ 0
    · rw [if_pos h0]
    · rw [if_neg h0, if_pos hc]
  | cons m rest ih =>
    intro l₂ r
    rw [List.cons_append, matchLoop, matchLoop]
    by_cases h0 : r ≤ 0
    · rw [if_pos h0, if_pos h0]
    rw [if_neg h0, if_neg h0]
    by_cases hnc : noCross isBuy new m = true
    · rw [if_pos hnc, if_pos hnc]
    rw [if_neg hnc, if_neg hnc]
    by_cases hrem : remaining_tokens m ≤ 0
    · rw [if_pos hrem, if_pos hrem]; exact ih l₂ r
    rw [if_neg hrem, if_neg hrem, ih l₂]

/-! Claims C1 to C4 and C10: the matching engine. -/

/-- Claim C1, counterexample.  The claim asserts that the collateral is
`floor(fill_quantity * maker_price)` computed in exact rational arithmetic and
never exceeds the unrounded product.  The source computes it with 28
significant-digit decimal arithmetic: against a resting SELL maker with
maker_amount 3 and taker_amount 10^28 + 1 (price (10^28+1)/3), a crossing BUY
for one token is recorded with collateral 3333333333333333333333333334, which
is strictly greater than the exact product 1 * (10^28+1)/3. -/
theorem claim_C1_counterexample :
    (match_new_order [sampleOrder 1 OrderSide.SELL 3 (10 ^ 28 + 1)]
        (sampleOrder 2 OrderSide.BUY (10 ^ 28) 1) 50).map
      (fun r => (r.tokenAmount, r.collateralAmount)) =
      [(1, 3333333333333333333333333334)] ∧
    ¬ ((3333333333333333333333333334 : ℚ) ≤
        (1 : ℚ) * ((((10 : ℚ) ^ 28 + 1)) / 3)) := by
  constructor
  · decide
  · norm_num

/-- Claim C1 (amended): for every match, the settlement price is the resting
maker's implied price — sell price `taker_amount / maker_amount` of a SELL
maker against an incoming BUY, buy price `maker_amount / taker_amount` of a
BUY maker against an incoming SELL — and the collateral is the truncation
toward zero of the 28-significant-digit decimal product
`fill_quantity * maker_price`.  Whenever the maker's price and that product
are exactly representable in 28 significant digits (always the case for the
intended sub-unit prices), the collateral equals
`floor(fill_quantity * maker_price)` in exact rational arithmetic and never
exceeds the unrounded product. -/
theorem claim_C1_amended (store : List Order) (new : Order) (bps : Int) (res : MatchResult)
    (hres : res ∈ match_new_order store new bps) :
    ∃ m, m ∈ store ∧ res.makerOrderId = m.id ∧
      ∀ mp : Frac, mp = (if new.side == OrderSide.BUY then sell_price m else buy_price m) →
        res.collateralAmount = truncF (rnd28F (scaleIntF res.tokenAmount mp)) ∧
        ∀ ratio : ℚ,
          ratio = (if new.side == OrderSide.BUY then (m.takerAmount : ℚ) / (m.makerAmount : ℚ)
                   else (m.makerAmount : ℚ) / (m.takerAmount : ℚ)) →
          mp.val = ratio →
          (rnd28F (scaleIntF res.tokenAmount mp)).val = (scaleIntF res.tokenAmount mp).val →
          res.collateralAmount = ⌊(res.tokenAmount : ℚ) * ratio⌋ ∧
            (res.collateralAmount : ℚ) ≤ (res.tokenAmount : ℚ) * ratio := by
  rw [match_new_order] at hres
  by_cases h0 : remaining_tokens new ≤ 0
  · rw [if_pos h0] at hres; simp at hres
  rw [if_neg h0] at hres
  obtain ⟨m, hm, hrem, hnc, tr, htr, hle, heq⟩ := matchLoop_mem hres
  rw [sortResting] at hm
  have hm' : m ∈ restingFilter store new := mem_stableSortBy.mp hm
  refine ⟨m, (List.mem_filter.mp hm').1, ?_, ?_⟩
  · rw [heq, mkMatchResult_makerOrderId]
  intro mp hmp
  have hcol : res.collateralAmount = truncF (rnd28F (scaleIntF res.tokenAmount mp)) := by
    rw [heq, mkMatchResult_collateralAmount, mkMatchResult_tokenAmount, hmp]
  refine ⟨hcol, ?_⟩
  intro ratio _ hval hex
  have h1 : (rnd28F (scaleIntF res.tokenAmount mp)).val = (res.tokenAmount : ℚ) * ratio := by
    rw [hex, scaleIntF_val, hval]
  have h2 : truncF (rnd28F (scaleIntF res.tokenAmount mp)) = ⌊(res.tokenAmount : ℚ) * ratio⌋ := by
    rw [truncF_eq_floor (rnd28F_num_nonneg _) (rnd28F_den_pos _), h1]
  refine ⟨by rw [hcol, h2], ?_⟩
  rw [hcol, h2]
  exact_mod_cast Int.floor_le ((res.tokenAmount : ℚ) * ratio)

/-- Claim C1, witness: the resting SELL of 2 tokens at exact price 1/2 matched
by a BUY of 5 tokens settles 2 tokens for collateral `floor(2 * 1/2) = 1`. -/
theorem claim_C1_witness :
    c1res.collateralAmount = ⌊(c1res.tokenAmount : ℚ) * ((1 : ℚ) / 2)⌋ ∧
      (c1res.collateralAmount : ℚ) ≤ (c1res.tokenAmount : ℚ) * ((1 : ℚ) / 2) := by
  obtain ⟨m, hm, _, h3⟩ := claim_C1_amended [c1maker] c1taker 50 c1res (by decide)
  have hmeq : m = c1maker := List.mem_singleton.mp hm
  subst hmeq
  obtain ⟨_, h5⟩ := h3 _ rfl
  refine h5 ((1 : ℚ) / 2) ?_ ?_ ?_
  · show (1 : ℚ) / 2 = ((1 : ℕ) : ℚ) / ((2 : ℕ) : ℚ)
    norm_num
  · have e0 : (if c1taker.side == OrderSide.BUY then sell_price c1maker else buy_price c1maker)
        = (⟨5000000000000000000000000000, 10000000000000000000000000000⟩ : Frac) := by decide
    rw [e0, Frac.val]
    norm_num
  · have e1 : rnd28F (scaleIntF c1res.tokenAmount
        (if c1taker.side == OrderSide.BUY then sell_price c1maker else buy_price c1maker))
        = (⟨1000000000000000000000000000, 1000000000000000000000000000⟩ : Frac) := by decide
    have e2 : scaleIntF c1res.tokenAmount
        (if c1taker.side == OrderSide.BUY then sell_price c1maker else buy_price c1maker)
        = (⟨10000000000000000000000000000, 10000000000000000000000000000⟩ : Frac) := by decide
    rw [e1, e2, Frac.val, Frac.val]
    norm_num

/-- Claim C2: the candidates of match_new_order are exactly the resting
opposite-side OPEN/PARTIAL orders of the same market and token; they are
scanned in strict price-time priority (the sort is a permutation of the
candidates, pairwise ordered by best maker price first with ties broken by
lowest id); and the scan stops at the first candidate that does not cross the
incoming price, producing no match with it or any later candidate. -/
theorem claim_C2_price_time_priority (l l₁ l₂ : List Order) (new c : Order) (isBuy : Bool)
    (bps r : Int) (hc : noCross isBuy new c = true) :
    (sortResting isBuy l).Pairwise (fun a b => priorityLE isBuy a b = true) ∧
    (sortResting isBuy l).Perm l ∧
    (∀ o : Order, o ∈ restingFilter l new ↔ o ∈ l ∧ o.conditionId = new.conditionId ∧
      o.tokenId = new.tokenId ∧ o.side = oppositeSide new.side ∧
      (o.status = OrderStatus.OPEN ∨ o.status = OrderStatus.PART)) ∧
    (match_new_order l new bps =
      if remaining_tokens new ≤ 0 then []
      else matchLoop new (new.side == OrderSide.BUY) bps (remaining_tokens new)
        (sortResting (new.side == OrderSide.BUY) (restingFilter l new))) ∧
    matchLoop new isBuy bps r (l₁ ++ c :: l₂) = matchLoop new isBuy bps r l₁ := by
  refine ⟨?_, stableSortBy_perm _ l, ?_, rfl, matchLoop_break hc l₁ l₂ r⟩
  · exact stableSortBy_pairwise (priorityLE isBuy) (fun _ => True)
      (fun a b c _ _ _ hab hbc => priorityLE_trans isBuy a b c hab hbc)
      (fun a b _ _ => priorityLE_total isBuy a b) l (fun _ _ => trivial)
  · intro o
    simp only [restingFilter, List.mem_filter, Bool.and_eq_true, Bool.or_eq_true, beq_iff_eq]
    tauto

/-- Claim C2, witness at an incoming BUY priced 0.30 against a resting SELL
priced 0.35: the candidate does not cross and the loop returns no match. -/
theorem claim_C2_witness :
    matchLoop c2new true 50 10 ([] ++ c2c :: []) = matchLoop c2new true 50 10 [] :=
  (claim_C2_price_time_priority [c2c] [] [] c2new c2c true 50 10 (by decide)).2.2.2.2

/-- Claim C3: for a crossing candidate with positive taker remaining, the fill
quantity is `min(taker_remaining, maker_remaining)`; a candidate with
non-positive maker remaining is skipped without ending the scan; the recorded
result's exhaustion flags are `fill ≥ maker_remaining` and
`fill ≥ taker_remaining`; and the taker remaining passed to the rest of the
scan is decremented by the fill quantity. -/
theorem claim_C3_fill_quantities (new m : Order) (l : List Order) (isBuy : Bool)
    (bps r : Int) (hr : 0 < r) (hcross : noCross isBuy new m = false) :
    (remaining_tokens m ≤ 0 →
      matchLoop new isBuy bps r (m :: l) = matchLoop new isBuy bps r l) ∧
    (0 < remaining_tokens m →
      matchLoop new isBuy bps r (m :: l) =
        mkMatchResult new m isBuy bps (min r (remaining_tokens m)) (remaining_tokens m) r
          :: matchLoop new isBuy bps (r - min r (remaining_tokens m)) l) ∧
    (∀ fill mrem tr : Int,
      ((mkMatchResult new m isBuy bps fill mrem tr).makerOrderExhausted = true ↔ mrem ≤ fill) ∧
      ((mkMatchResult new m isBuy bps fill mrem tr).takerOrderExhausted = true ↔ tr ≤ fill)) := by
  refine ⟨?_, ?_, ?_⟩
  · intro hrem
    rw [matchLoop, if_neg (by omega), if_neg (by simp [hcross]), if_pos hrem]
  · intro hrem
    rw [matchLoop, if_neg (by omega), if_neg (by simp [hcross]), if_neg (by omega)]
  · intro fill mrem tr
    constructor
    · rw [mkMatchResult_makerExhausted, decide_eq_true_eq]
    · rw [mkMatchResult_takerExhausted, decide_eq_true_eq]

/-- Claim C3, witness: a maker with remaining 10 against a taker wanting 15
fills 10 tokens, exhausting the maker (10 ≥ 10) but not the taker
(¬ 10 ≥ 15). -/
theorem claim_C3_witness :
    (matchLoop c3new true 50 15 [c3maker] =
      mkMatchResult c3new c3maker true 50 (min 15 (remaining_tokens c3maker))
          (remaining_tokens c3maker) 15
        :: matchLoop c3new true 50 (15 - min 15 (remaining_tokens c3maker)) []) ∧
    ((mkMatchResult c3new c3maker true 50 10 10 15).makerOrderExhausted = true ↔ (10 : Int) ≤ 10) ∧
    ((mkMatchResult c3new c3maker true 50 10 10 15).takerOrderExhausted = true ↔ (15 : Int) ≤ 10) := by
  have h := claim_C3_fill_quantities c3new c3maker [] true 50 15 (by norm_num) (by decide)
  exact ⟨h.2.1 (by decide), (h.2.2 10 10 15).1, (h.2.2 10 10 15).2⟩

/-- Claim C4, counterexample.  The claim says the fee rate is the matched
order's `fee_rate_bps`.  The source computes the fee from the engine's
`protocol_fee_bps` parameter (default 50) and never reads the orders'
`fee_rate_bps`: two orders with fee_rate_bps 0 still produce fee 5 on
collateral 1000, while floor(1000 * 0 / 10000) = 0. -/
theorem claim_C4_counterexample :
    (match_new_order [sampleOrder 1 OrderSide.SELL 1000 1000]
        (sampleOrder 2 OrderSide.BUY 1000 1000) 50).map
      (fun r => (r.fee, r.collateralAmount)) = [(5, 1000)] ∧
    (sampleOrder 1 OrderSide.SELL 1000 1000).feeRateBps = 0 ∧
    (sampleOrder 2 OrderSide.BUY 1000 1000).feeRateBps = 0 ∧
    (5 : Int) ≠
      Int.fdiv (1000 * ((sampleOrder 1 OrderSide.SELL 1000 1000).feeRateBps : Int)) 10000 := by
  refine ⟨by decide, rfl, rfl, by decide⟩

/-- Claim C4 (amended): every recorded fee is
`floor(collateral * protocol_fee_bps / 10000)` — Python floor division — where
`protocol_fee_bps` is the matching engine's parameter (default 50), computed
on the collateral leg only and independent of the orders' fee_rate_bps.  The
fee never exceeds the unrounded value `collateral * bps / 10000`. -/
theorem claim_C4_amended (store : List Order) (new : Order) (bps : Int) (res : MatchResult)
    (hres : res ∈ match_new_order store new bps) :
    res.fee = Int.fdiv (res.collateralAmount * bps) 10000 ∧
    10000 * res.fee ≤ res.collateralAmount * bps := by
  rw [match_new_order] at hres
  by_cases h0 : remaining_tokens new ≤ 0
  · rw [if_pos h0] at hres; simp at hres
  rw [if_neg h0] at hres
  obtain ⟨m, _, _, _, tr, _, _, heq⟩ := matchLoop_mem hres
  have hfee : res.fee = Int.fdiv (res.collateralAmount * bps) 10000 := by
    rw [heq]; exact mkMatchResult_fee _ _ _ _ _ _ _
  refine ⟨hfee, ?_⟩
  rw [hfee, Int.fdiv_eq_ediv _ (by norm_num)]
  have h := Int.ediv_mul_le (res.collateralAmount * bps) (show (10000 : Int) ≠ 0 by norm_num)
  linarith

/-- Claim C4, witness: the 1000-token match at price 1 carries fee
`floor(1000 * 50 / 10000) = 5`. -/
theorem claim_C4_witness :
    c4res.fee = Int.fdiv (c4res.collateralAmount * 50) 10000 ∧
    10000 * c4res.fee ≤ c4res.collateralAmount * 50 :=
  claim_C4_amended [sampleOrder 1 OrderSide.SELL 1000 1000]
    (sampleOrder 2 OrderSide.BUY 1000 1000) 50 c4res (by decide)

/-- Claim C10: match_new_order never over-allocates liquidity.  When the
stored orders have distinct ids, each maker appears in at most one result;
every result fills a positive quantity bounded by that maker's remaining
quantity; the total filled quantity is bounded by the incoming order's initial
remaining quantity; and every prefix of the result list leaves a non-negative
taker remainder for the next fill. -/
theorem claim_C10_no_overallocation (store : List Order) (new : Order) (bps : Int)
    (hids : (store.map (fun o => o.id)).Nodup) :
    ((match_new_order store new bps).map (fun res => res.makerOrderId)).Nodup ∧
    (∀ res ∈ match_new_order store new bps,
      ∃ m, m ∈ store ∧ res.makerOrderId = m.id ∧ 0 < res.tokenAmount ∧
        res.tokenAmount ≤ remaining_tokens m) ∧
    ((match_new_order store new bps).map (fun res => res.tokenAmount)).sum
      ≤ max (remaining_tokens new) 0 ∧
    (∀ l₁ res l₂, match_new_order store new bps = l₁ ++ res :: l₂ →
      (l₁.map (fun r => r.tokenAmount)).sum + res.tokenAmount ≤ remaining_tokens new) := by
  have hmem : ∀ res ∈ match_new_order store new bps,
      ∃ m, m ∈ store ∧ res.makerOrderId = m.id ∧ 0 < res.tokenAmount ∧
        res.tokenAmount ≤ remaining_tokens m := by
    intro res hres
    rw [match_new_order] at hres
    by_cases h0 : remaining_tokens new ≤ 0
    · rw [if_pos h0] at hres; simp at hres
    rw [if_neg h0] at hres
    obtain ⟨m, hm, hrem, _, tr, htr, _, heq⟩ := matchLoop_mem hres
    rw [sortResting] at hm
    have hm' : m ∈ restingFilter store new := mem_stableSortBy.mp hm
    refine ⟨m, (List.mem_filter.mp hm').1, ?_, ?_, ?_⟩
    · rw [heq, mkMatchResult_makerOrderId]
    · rw [heq, mkMatchResult_tokenAmount]; omega
    · rw [heq, mkMatchResult_tokenAmount]; omega
  rw [match_new_order]
  by_cases h0 : remaining_tokens new ≤ 0
  · rw [if_pos h0]
    refine ⟨by simp, ?_, by simp, ?_⟩
    · rw [match_new_order] at hmem; rw [if_pos h0] at hmem; exact hmem
    · intro l₁ res l₂ habs
      exact absurd habs.symm (List.append_ne_nil_of_right_ne_nil l₁ (List.cons_ne_nil res l₂))
  rw [if_neg h0]
  have hmem' := hmem
  rw [match_new_order, if_neg h0] at hmem'
  refine ⟨?_, hmem', matchLoop_sum new _ bps _ _, ?_⟩
  · apply matchLoop_nodup
    have h1 : ((restingFilter store new).map (fun o => o.id)).Nodup :=
      ((List.filter_sublist store).map (fun o => o.id)).nodup hids
    exact ((stableSortBy_perm (priorityLE (new.side == OrderSide.BUY))
      (restingFilter store new)).map (fun o => o.id)).symm.nodup h1
  · intro l₁ res l₂ hsplit
    have hsum := matchLoop_sum new (new.side == OrderSide.BUY) bps
      (sortResting (new.side == OrderSide.BUY) (restingFilter store new)) (remaining_tokens new)
    rw [hsplit, List.map_append, List.sum_append, List.map_cons, List.sum_cons] at hsum
    have hl2 : 0 ≤ (l₂.map (fun r => r.tokenAmount)).sum := by
      apply List.sum_nonneg
      intro x hx
      rcases List.mem_map.mp hx with ⟨res', hres', rfl⟩
      have hres'' : res' ∈ matchLoop new (new.side == OrderSide.BUY) bps
          (remaining_tokens new)
          (sortResting (new.side == OrderSide.BUY) (restingFilter store new)) := by
        rw [hsplit]
        exact List.mem_append_right l₁ (List.mem_cons_of_mem res hres')
      obtain ⟨m, _, _, hpos, _⟩ := hmem' res' hres''
      omega
    omega

/-- Claim C10, witness: the single-maker book allocates at most the taker's
initial remaining quantity. -/
theorem claim_C10_witness :
    ((match_new_order [c1maker] c1taker 50).map (fun res => res.tokenAmount)).sum
      ≤ max (remaining_tokens c1taker) 0 :=
  (claim_C10_no_overallocation [c1maker] c1taker 50 (by decide)).2.2.1

/-! Claims C5, C8, C9: the order lifecycle service. -/

theorem apply_match_orderHash (st : ClobState) (m : MatchResult) (fid : Nat) :
    ((apply_match st m fid).orders).map (fun o => o.orderHash) =
      st.orders.map (fun o => o.orderHash) := by
  simp only [apply_match]
  rw [List.map_map]
  apply List.map_congr_left
  intro o _
  simp only [Function.comp_apply]
  split
  · rfl
  · split <;> rfl

theorem apply_matches_orderHash (ms : List MatchResult) :
    ∀ (st : ClobState) (fid : Nat),
      ((apply_matches st ms fid).orders).map (fun o => o.orderHash) =
        st.orders.map (fun o => o.orderHash) := by
  induction ms with
  | nil => intro st fid; rfl
  | cons m ms ih =>
    intro st fid
    show ((apply_matches (apply_match st m fid) ms (fid + 1)).orders).map _ = _
    rw [ih, apply_match_orderHash]

/-- Claim C5: submit_order rejects a duplicate canonical order hash before any
persistence — an order whose hash is already present in the store yields the
duplicate-hash error, and the error return carries no state, so no Order row
and no Fill row is created by the rejected submission.  Consequently a second
submission of the same signed payload (same hash) after a successful first one
always fails with the duplicate-hash error. -/
theorem claim_C5_duplicate_rejected (st : ClobState) (payload : Order) (h : String)
    (newId nextFillId : Nat) :
    ((∃ o ∈ st.orders, o.orderHash = h) →
      submit_order st payload true h newId nextFillId =
        Except.error ClobError.duplicateHash) ∧
    (∀ p₂ i₂ j₂ st', submit_order st p₂ true h i₂ j₂ = Except.ok st' →
      ∀ p₃ i₃ j₃, submit_order st' p₃ true h i₃ j₃ =
        Except.error ClobError.duplicateHash) := by
  have hdup : ∀ (st₀ : ClobState) (p : Order) (i j : Nat),
      (∃ o ∈ st₀.orders, o.orderHash = h) →
      submit_order st₀ p true h i j = Except.error ClobError.duplicateHash := by
    rintro st₀ p i j ⟨o, ho, hh⟩
    rw [submit_order, if_neg (by decide), if_pos]
    exact List.any_eq_true.mpr ⟨o, ho, beq_iff_eq.mpr hh⟩
  refine ⟨hdup st payload newId nextFillId, ?_⟩
  intro p₂ i₂ j₂ st' hok p₃ i₃ j₃
  apply hdup
  rw [submit_order, if_neg (by decide)] at hok
  by_cases hany : st.orders.any (fun o => o.orderHash == h) = true
  · rw [if_pos hany] at hok
    exact absurd hok (by simp)
  rw [if_neg hany] at hok
  simp only [Except.ok.injEq] at hok
  have hmem : h ∈ (st'.orders).map (fun o => o.orderHash) := by
    rw [← hok, apply_matches_orderHash]
    simp
  rcases List.mem_map.mp hmem with ⟨o, ho, hh⟩
  exact ⟨o, ho, hh⟩

/-- Claim C5, witness: resubmitting the payload whose hash "hsh" is already
persisted is rejected with the duplicate-hash error. -/
theorem claim_C5_witness :
    submit_order c5state c5payload true "hsh" 2 2 = Except.error ClobError.duplicateHash :=
  (claim_C5_duplicate_rejected ⟨[], []⟩ c5payload "hsh" 1 1).2 c5payload 1 1 c5state
    (by rfl) c5payload 2 2

/-- Claim C8: cancel_order succeeds exactly on an existing OPEN/PARTIAL order
of the requesting maker.  An unknown (id, maker) pair is a not-found error; a
terminal status (FILLED, CANCELLED, EXPIRED) is an invalid-state error with no
state change (the error return carries no state); on success the matching
order's status becomes CANCELLED, every other row is left in the store
unchanged, and the result is the same whether the best-effort on-chain
cancellation succeeds or fails. -/
theorem claim_C8_cancel (orders : List Order) (orderId : Nat) (addr : String) (chainOk : Bool) :
    ((orders.find? (fun o => o.id == orderId && o.makerAddress == addr) = none) →
      cancel_order orders orderId addr chainOk = Except.error ClobError.notFound) ∧
    (∀ o, orders.find? (fun o => o.id == orderId && o.makerAddress == addr) = some o →
      (o.status = OrderStatus.FILLED ∨ o.status = OrderStatus.CANCELLED ∨
        o.status = OrderStatus.EXPIRED) →
      cancel_order orders orderId addr chainOk =
        Except.error (ClobError.invalidState o.status)) ∧
    (∀ o, orders.find? (fun o => o.id == orderId && o.makerAddress == addr) = some o →
      (o.status = OrderStatus.OPEN ∨ o.status = OrderStatus.PART) →
      ∃ res, cancel_order orders orderId addr chainOk = Except.ok res ∧
        (∀ p ∈ res, p.id = orderId → p.makerAddress = addr →
          p.status = OrderStatus.CANCELLED) ∧
        (∀ p ∈ res, (p.id = orderId ∧ p.makerAddress = addr) ∨ p ∈ orders)) ∧
    cancel_order orders orderId addr true = cancel_order orders orderId addr false := by
  refine ⟨?_, ?_, ?_, rfl⟩
  · intro hf
    rw [cancel_order, hf]
  · intro o hf hterm
    have hcond : (o.status == OrderStatus.FILLED || o.status == OrderStatus.CANCELLED ||
        o.status == OrderStatus.EXPIRED) = true := by
      rcases hterm with h | h | h <;> rw [h] <;> rfl
    rw [cancel_order, hf]
    simp only [hcond, if_true]
  · intro o hf hok
    have hcond : (o.status == OrderStatus.FILLED || o.status == OrderStatus.CANCELLED ||
        o.status == OrderStatus.EXPIRED) = false := by
      rcases hok with h | h <;> rw [h] <;> rfl
    rw [cancel_order, hf]
    simp only [hcond, Bool.false_eq_true, if_false]
    refine ⟨_, rfl, ?_, ?_⟩
    · intro p hp hid haddr
      rcases List.mem_map.mp hp with ⟨q, _, rfl⟩
      by_cases hq : (q.id == orderId && q.makerAddress == addr) = true
      · rw [if_pos hq]
      · rw [if_neg hq] at hid haddr ⊢
        exact absurd (by simp [hid, haddr]) hq
    · intro p hp
      rcases List.mem_map.mp hp with ⟨q, hq', rfl⟩
      by_cases hq : (q.id == orderId && q.makerAddress == addr) = true
      · rw [if_pos hq]
        rcases Bool.and_eq_true .. |>.mp hq with ⟨h1, h2⟩
        exact Or.inl ⟨beq_iff_eq.mp h1, beq_iff_eq.mp h2⟩
      · rw [if_neg hq]
        exact Or.inr hq'

/-- Claim C8, witness: cancelling an OPEN order of maker "a" succeeds and the
row is CANCELLED afterwards, all other rows untouched. -/
theorem claim_C8_witness :
    ∃ res, cancel_order [sampleOrder 1 OrderSide.BUY 5 5] 1 "a" true = Except.ok res ∧
      (∀ p ∈ res, p.id = 1 → p.makerAddress = "a" → p.status = OrderStatus.CANCELLED) ∧
      (∀ p ∈ res, (p.id = 1 ∧ p.makerAddress = "a") ∨ p ∈ [sampleOrder 1 OrderSide.BUY 5 5]) :=
  (claim_C8_cancel [sampleOrder 1 OrderSide.BUY 5 5] 1 "a" true).2.2.1
    (sampleOrder 1 OrderSide.BUY 5 5) (by decide) (Or.inl rfl)

/-- Claim C9, counterexample.  The claim says cancelling an already CANCELLED
order is accepted and does not fail; the source rejects every terminal status,
including CANCELLED, with an invalid-state error. -/
theorem claim_C9_counterexample :
    cancel_order [c9order] 1 "a" true =
      Except.error (ClobError.invalidState OrderStatus.CANCELLED) := by
  rfl

/-- Claim C9 (amended): repeating a cancel is rejected, not accepted — a
cancel of an already CANCELLED order returns the invalid-state error, and
since the error return carries no state, the order stays CANCELLED: the
repetition changes nothing at the state level, but it does fail. -/
theorem claim_C9_amended (orders : List Order) (orderId : Nat) (addr : String)
    (chainOk : Bool) (o : Order)
    (hf : orders.find? (fun p => p.id == orderId && p.makerAddress == addr) = some o)
    (hst : o.status = OrderStatus.CANCELLED) :
    cancel_order orders orderId addr chainOk =
      Except.error (ClobError.invalidState OrderStatus.CANCELLED) := by
  rw [cancel_order, hf]
  simp only [hst]
  exact if_pos rfl

/-- Claim C9, witness: the repeated cancel of the already cancelled order id 1
returns the invalid-state error (with the on-chain call failing, chainOk
false, which changes nothing). -/
theorem claim_C9_witness :
    cancel_order [c9order] 1 "a" false =
      Except.error (ClobError.invalidState OrderStatus.CANCELLED) :=
  claim_C9_amended [c9order] 1 "a" false c9order (by decide) rfl

/-! Claim C6: the settlement batch. -/

theorem collectFillIds_go (getOrder : Nat → Option Order) :
    ∀ (fillsData : List (Fill × Order)) (acc : List Nat),
      (∀ p ∈ fillsData, ∃ t, p.1.takerOrderId = some t ∧ (getOrder t).isSome = true) →
      fillsData.foldl
        (fun acc fm =>
          match fm.1.takerOrderId with
          | none => acc
          | some tid =>
            match getOrder tid with
            | none => acc
            | some _ => acc ++ [fm.1.id]) acc
      = acc ++ fillsData.map (fun p => p.1.id) := by
  intro fillsData
  induction fillsData with
  | nil => intro acc _; simp
  | cons p ps ih =>
    intro acc hres
    obtain ⟨t, ht, hsome⟩ := hres p (List.mem_cons_self _ _)
    rw [List.foldl_cons]
    rcases Option.isSome_iff_exists.mp hsome with ⟨ord, hord⟩
    have hstep : (match p.1.takerOrderId with
        | none => acc
        | some tid =>
          match getOrder tid with
          | none => acc
          | some _ => acc ++ [p.1.id]) = acc ++ [p.1.id] := by
      simp only [ht, hord]
    rw [hstep, ih _ (fun q hq => hres q (List.mem_cons_of_mem _ hq))]
    simp

theorem collectFillIds_eq (getOrder : Nat → Option Order) (fillsData : List (Fill × Order))
    (hres : ∀ p ∈ fillsData, ∃ t, p.1.takerOrderId = some t ∧ (getOrder t).isSome = true) :
    collectFillIds getOrder fillsData = fillsData.map (fun p => p.1.id) := by
  have h := collectFillIds_go getOrder fillsData [] hres
  simpa [collectFillIds] using h

/-- Claim C6: one settlement batch is settled batch-or-nothing through a
single chain-execution call.  Provided every fill of the batch resolves its
taker order (the invariant of every fill the service creates), a successful
call marks every fill of the batch SETTLED with the one shared transaction
reference and the settlement timestamp, a failed call marks every fill of the
batch FAILED, and in neither case does a fill of the batch remain PENDING. -/
theorem claim_C6_batch_or_nothing (getOrder : Nat → Option Order)
    (fillsData : List (Fill × Order)) (chainResult : Option String) (now : String)
    (fills : List Fill)
    (hres : ∀ p ∈ fillsData, ∃ t, p.1.takerOrderId = some t ∧ (getOrder t).isSome = true)
    (hne : fillsData ≠ []) :
    ∀ f ∈ settle_condition_fills getOrder fillsData chainResult now fills,
      f.id ∈ fillsData.map (fun p => p.1.id) →
        (∀ tx, chainResult = some tx →
          f.status = FillStatus.SETTLED ∧ f.txHash = some tx ∧ f.settledAt = some now) ∧
        (chainResult = none → f.status = FillStatus.FAILED) ∧
        f.status ≠ FillStatus.PENDING := by
  intro f hf hid
  simp only [settle_condition_fills, collectFillIds_eq getOrder fillsData hres] at hf
  have hids_ne : fillsData.map (fun p => p.1.id) ≠ [] := by
    intro habs
    exact hne (List.map_eq_nil_iff.mp habs)
  rw [if_neg (by simpa [List.isEmpty_iff] using hids_ne)] at hf
  cases chainResult with
  | some tx =>
    rcases List.mem_map.mp hf with ⟨f₀, _, rfl⟩
    by_cases hmem : f₀.id ∈ fillsData.map (fun p => p.1.id)
    · rw [if_pos hmem]
      refine ⟨fun tx' htx' => ?_, by simp, by simp⟩
      rcases Option.some.injEq .. |>.mp htx' with rfl
      exact ⟨rfl, rfl, rfl⟩
    · rw [if_neg hmem] at hid
      exact absurd hid hmem
  | none =>
    rcases List.mem_map.mp hf with ⟨f₀, _, rfl⟩
    by_cases hmem : f₀.id ∈ fillsData.map (fun p => p.1.id)
    · rw [if_pos hmem]
      exact ⟨fun tx' htx' => by simp at htx', fun _ => rfl, by simp⟩
    · rw [if_neg hmem] at hid
      exact absurd hid hmem

/-- Claim C6, witness: in a successful batch of three pending fills, fill 10
is SETTLED with the shared transaction hash and timestamp. -/
theorem claim_C6_witness :
    c6settledFill.status = FillStatus.SETTLED ∧ c6settledFill.txHash = some "0xT" ∧
      c6settledFill.settledAt = some "t0" := by
  have h := claim_C6_batch_or_nothing c6getOrder c6fillsData (some "0xT") "t0" c6fills
    (by intro p hp
        fin_cases hp <;> exact ⟨1, rfl, rfl⟩)
    (by simp [c6fillsData])
  exact (h c6settledFill (by decide) (by decide)).1 "0xT" rfl

/-! Claim C7: the order-book aggregation. -/

theorem bumpLevel_price (rem : Int) (l : AggregatedLevel) : (bumpLevel rem l).price = l.price := rfl

theorem bumpLevel_size (rem : Int) (l : AggregatedLevel) :
    (bumpLevel rem l).size = l.size + rem := rfl

theorem bumpLevel_count (rem : Int) (l : AggregatedLevel) :
    (bumpLevel rem l).order_count = l.order_count + 1 := rfl

theorem quant6F_den (f : Frac) : (quant6F f).den = 1000000 := rfl

theorem sizeAt_cons (x : AggregatedLevel) (xs : List AggregatedLevel) (q : Frac) :
    sizeAt (x :: xs) q = (if x.price == q then x.size else 0) + sizeAt xs q := by
  rw [sizeAt, sizeAt, List.filter_cons]
  by_cases h : (x.price == q) = true
  · rw [if_pos h, if_pos h, List.map_cons, List.sum_cons]
  · rw [if_neg h, if_neg h, zero_add]

theorem countAt_cons (x : AggregatedLevel) (xs : List AggregatedLevel) (q : Frac) :
    countAt (x :: xs) q = (if x.price == q then x.order_count else 0) + countAt xs q := by
  rw [countAt, countAt, List.filter_cons]
  by_cases h : (x.price == q) = true
  · rw [if_pos h, if_pos h, List.map_cons, List.sum_cons]
  · rw [if_neg h, if_neg h, zero_add]

theorem keyCount_cons (x : AggregatedLevel) (xs : List AggregatedLevel) (q : Frac) :
    keyCount (x :: xs) q = (if x.price == q then 1 else 0) + keyCount xs q := by
  rw [keyCount, keyCount, List.filter_cons]
  by_cases h : (x.price == q) = true
  · rw [if_pos h, if_pos h, List.length_cons]; omega
  · rw [if_neg h, if_neg h, zero_add]

theorem any_price_iff (lvs : List AggregatedLevel) (p : Frac) :
    (lvs.any (fun l => l.price == p)) = true ↔ 0 < keyCount lvs p := by
  rw [List.any_eq_true, keyCount, List.length_pos]
  constructor
  · rintro ⟨l, hl, hp⟩
    exact List.ne_nil_of_mem (List.mem_filter.mpr ⟨hl, hp⟩)
  · intro h
    rcases List.exists_mem_of_ne_nil _ h with ⟨l, hl⟩
    rcases List.mem_filter.mp hl with ⟨h1, h2⟩
    exact ⟨l, h1, h2⟩

theorem keyCount_update (p : Frac) (rem : Int) (q : Frac) :
    ∀ lvs : List AggregatedLevel,
      keyCount (lvs.map (fun l => if l.price == p then bumpLevel rem l else l)) q
        = keyCount lvs q := by
  intro lvs
  induction lvs with
  | nil => rfl
  | cons l ls ih =>
    rw [List.map_cons, keyCount_cons, keyCount_cons, ih]
    by_cases hp : (l.price == p) = true
    · rw [if_pos hp, bumpLevel_price]
    · rw [if_neg hp]

theorem sizeAt_update (p : Frac) (rem : Int) (q : Frac) :
    ∀ lvs : List AggregatedLevel,
      sizeAt (lvs.map (fun l => if l.price == p then bumpLevel rem l else l)) q
        = sizeAt lvs q + (if q = p then rem * (keyCount lvs p : Int) else 0) := by
  intro lvs
  induction lvs with
  | nil =>
    rw [List.map_nil]
    by_cases h : q = p
    · rw [if_pos h]; rw [keyCount]; simp [sizeAt]
    · rw [if_neg h]; simp [sizeAt]
  | cons l ls ih =>
    rw [List.map_cons]
    by_cases hp : (l.price == p) = true
    · rw [if_pos hp, sizeAt_cons, sizeAt_cons, keyCount_cons, ih, bumpLevel_price, bumpLevel_size]
      by_cases hq : (l.price == q) = true
      · have hqp : q = p := by rw [← beq_iff_eq.mp hq, beq_iff_eq.mp hp]
        simp only [if_pos hq, if_pos hqp, if_pos hp]
        push_cast
        ring
      · have hqp : ¬ q = p := fun h => hq (beq_iff_eq.mpr (by rw [beq_iff_eq.mp hp, h]))
        simp only [if_neg hq, if_neg hqp]
        ring
    · rw [if_neg hp, sizeAt_cons, sizeAt_cons, keyCount_cons, ih]
      simp only [if_neg hp]
      by_cases hq : (l.price == q) = true
      · simp only [if_pos hq]
        by_cases hqp : q = p
        · simp only [if_pos hqp]; push_cast; ring
        · simp only [if_neg hqp]; ring
      · simp only [if_neg hq]
        by_cases hqp : q = p
        · simp only [if_pos hqp]; push_cast; ring
        · simp only [if_neg hqp]; ring

theorem countAt_update (p : Frac) (rem : Int) (q : Frac) :
    ∀ lvs : List AggregatedLevel,
      countAt (lvs.map (fun l => if l.price == p then bumpLevel rem l else l)) q
        = countAt lvs q + (if q = p then keyCount lvs p else 0) := by
  intro lvs
  induction lvs with
  | nil =>
    rw [List.map_nil]
    by_cases h : q = p
    · rw [if_pos h]; rw [keyCount]; simp [countAt]
    · rw [if_neg h]; simp [countAt]
  | cons l ls ih =>
    rw [List.map_cons]
    by_cases hp : (l.price == p) = true
    · rw [if_pos hp, countAt_cons, countAt_cons, keyCount_cons, ih, bumpLevel_price,
        bumpLevel_count]
      by_cases hq : (l.price == q) = true
      · have hqp : q = p := by rw [← beq_iff_eq.mp hq, beq_iff_eq.mp hp]
        simp only [if_pos hq, if_pos hqp, if_pos hp]
        omega
      · have hqp : ¬ q = p := fun h => hq (beq_iff_eq.mpr (by rw [beq_iff_eq.mp hp, h]))
        simp only [if_neg hq, if_neg hqp]
        omega
    · rw [if_neg hp, countAt_cons, countAt_cons, keyCount_cons, ih]
      simp only [if_neg hp]
      by_cases hq : (l.price == q) = true
      · simp only [if_pos hq]
        by_cases hqp : q = p
        · simp only [if_pos hqp]; omega
        · simp only [if_neg hqp]; omega
      · simp only [if_neg hq]
        by_cases hqp : q = p
        · simp only [if_pos hqp]; omega
        · simp only [if_neg hqp]; omega

theorem sizeAt_append_single (lvs : List AggregatedLevel) (p : Frac) (rem : Int) (q : Frac) :
    sizeAt (lvs ++ [⟨p, rem, 1⟩]) q = sizeAt lvs q + (if q = p then rem else 0) := by
  rw [sizeAt, sizeAt, List.filter_append, List.map_append, List.sum_append, List.filter_cons]
  by_cases h : q = p
  · rw [if_pos h, if_pos (beq_iff_eq.mpr h.symm : ((⟨p, rem, 1⟩ : AggregatedLevel).price == q) = true)]
    simp
  · rw [if_neg h, if_neg (fun hc => h (beq_iff_eq.mp hc).symm :
      ¬ ((⟨p, rem, 1⟩ : AggregatedLevel).price == q) = true)]
    simp

theorem countAt_append_single (lvs : List AggregatedLevel) (p : Frac) (rem : Int) (q : Frac) :
    countAt (lvs ++ [⟨p, rem, 1⟩]) q = countAt lvs q + (if q = p then 1 else 0) := by
  rw [countAt, countAt, List.filter_append, List.map_append, List.sum_append, List.filter_cons]
  by_cases h : q = p
  · rw [if_pos h, if_pos (beq_iff_eq.mpr h.symm : ((⟨p, rem, 1⟩ : AggregatedLevel).price == q) = true)]
    simp
  · rw [if_neg h, if_neg (fun hc => h (beq_iff_eq.mp hc).symm :
      ¬ ((⟨p, rem, 1⟩ : AggregatedLevel).price == q) = true)]
    simp

theorem keyCount_append_single (lvs : List AggregatedLevel) (p : Frac) (rem : Int) (q : Frac) :
    keyCount (lvs ++ [⟨p, rem, 1⟩]) q = keyCount lvs q + (if q = p then 1 else 0) := by
  rw [keyCount, keyCount, List.filter_append, List.length_append, List.filter_cons]
  by_cases h : q = p
  · rw [if_pos h, if_pos (beq_iff_eq.mpr h.symm : ((⟨p, rem, 1⟩ : AggregatedLevel).price == q) = true)]
    simp
  · rw [if_neg h, if_neg (fun hc => h (beq_iff_eq.mp hc).symm :
      ¬ ((⟨p, rem, 1⟩ : AggregatedLevel).price == q) = true)]
    simp

theorem addLevel_facts (lvs : List AggregatedLevel) (p : Frac) (rem : Int)
    (hinv : ∀ x, keyCount lvs x ≤ 1) :
    (∀ q, keyCount (addLevel lvs p rem) q ≤ 1) ∧
    (∀ q, sizeAt (addLevel lvs p rem) q = sizeAt lvs q + (if q = p then rem else 0)) ∧
    (∀ q, countAt (addLevel lvs p rem) q = countAt lvs q + (if q = p then 1 else 0)) := by
  rw [addLevel]
  by_cases hany : (lvs.any (fun l => l.price == p)) = true
  · rw [if_pos hany]
    have hcnt : keyCount lvs p = 1 := by
      have h1 := (any_price_iff lvs p).mp hany
      have h2 := hinv p
      omega
    refine ⟨?_, ?_, ?_⟩
    · intro q; rw [keyCount_update]; exact hinv q
    · intro q
      rw [sizeAt_update, hcnt]
      by_cases hq : q = p
      · rw [if_pos hq, if_pos hq]; ring
      · rw [if_neg hq, if_neg hq]
    · intro q
      rw [countAt_update, hcnt]
  · rw [if_neg hany]
    have hcnt0 : keyCount lvs p = 0 := by
      rcases Nat.eq_zero_or_pos (keyCount lvs p) with h | h
      · exact h
      · exact absurd ((any_price_iff lvs p).mpr h) hany
    refine ⟨?_, ?_, ?_⟩
    · intro q
      rw [keyCount_append_single]
      by_cases hq : q = p
      · rw [if_pos hq, hq, hcnt0]
      · rw [if_neg hq]
        have := hinv q
        omega
    · intro q; exact sizeAt_append_single lvs p rem q
    · intro q; exact countAt_append_single lvs p rem q

theorem mem_addLevel {lvs : List AggregatedLevel} {p : Frac} {rem : Int} {lv : AggregatedLevel}
    (h : lv ∈ addLevel lvs p rem) : lv.price = p ∨ ∃ x ∈ lvs, lv.price = x.price := by
  rw [addLevel] at h
  by_cases hany : (lvs.any (fun l => l.price == p)) = true
  · rw [if_pos hany] at h
    rcases List.mem_map.mp h with ⟨x, hx, rfl⟩
    by_cases hp : (x.price == p) = true
    · rw [if_pos hp, bumpLevel_price]
      exact Or.inr ⟨x, hx, rfl⟩
    · rw [if_neg hp]
      exact Or.inr ⟨x, hx, rfl⟩
  · rw [if_neg hany] at h
    rcases List.mem_append.mp h with hx | hx
    · exact Or.inr ⟨lv, hx, rfl⟩
    · rcases List.mem_singleton.mp hx with rfl
      exact Or.inl rfl

theorem Frac.vle_total (x y : Frac) : x.vle y = true ∨ y.vle x = true := by
  rw [Frac.vle, Frac.vle, decide_eq_true_eq, decide_eq_true_eq]
  exact Int.le_total (x.num * (y.den : Int)) (y.num * (x.den : Int))

theorem buyGroup_cons (o : Order) (os : List Order) (q : Frac) :
    buyGroup (o :: os) q =
      if (o.side == OrderSide.BUY && decide (0 < remaining_tokens o) &&
          (quant6F (buy_price o) == q)) = true
      then o :: buyGroup os q else buyGroup os q := by
  rw [buyGroup, buyGroup, List.filter_cons]

theorem sellGroup_cons (o : Order) (os : List Order) (q : Frac) :
    sellGroup (o :: os) q =
      if (o.side == OrderSide.SELL && decide (0 < remaining_tokens o) &&
          (quant6F (sell_price o) == q)) = true
      then o :: sellGroup os q else sellGroup os q := by
  rw [sellGroup, sellGroup, List.filter_cons]

theorem buildLevels_go (orders : List Order) :
    ∀ (accB accS : List AggregatedLevel),
      (∀ x, keyCount accB x ≤ 1) → (∀ x, keyCount accS x ≤ 1) →
      (∀ x ∈ accB, 0 < x.price.den) → (∀ x ∈ accS, 0 < x.price.den) →
      (∀ x, keyCount (List.foldl buildStep (accB, accS) orders).1 x ≤ 1) ∧
      (∀ x, keyCount (List.foldl buildStep (accB, accS) orders).2 x ≤ 1) ∧
      (∀ x ∈ (List.foldl buildStep (accB, accS) orders).1, 0 < x.price.den) ∧
      (∀ x ∈ (List.foldl buildStep (accB, accS) orders).2, 0 < x.price.den) ∧
      (∀ q, sizeAt (List.foldl buildStep (accB, accS) orders).1 q
        = sizeAt accB q + ((buyGroup orders q).map remaining_tokens).sum) ∧
      (∀ q, countAt (List.foldl buildStep (accB, accS) orders).1 q
        = countAt accB q + (buyGroup orders q).length) ∧
      (∀ q, sizeAt (List.foldl buildStep (accB, accS) orders).2 q
        = sizeAt accS q + ((sellGroup orders q).map remaining_tokens).sum) ∧
      (∀ q, countAt (List.foldl buildStep (accB, accS) orders).2 q
        = countAt accS q + (sellGroup orders q).length) := by
  induction orders with
  | nil =>
    intro accB accS h1 h2 h3 h4
    refine ⟨h1, h2, h3, h4, ?_, ?_, ?_, ?_⟩ <;> intro q <;> simp [buyGroup, sellGroup]
  | cons o os ih =>
    intro accB accS h1 h2 h3 h4
    rw [List.foldl_cons]
    by_cases hrem : remaining_tokens o ≤ 0
    · have hstep : buildStep (accB, accS) o = (accB, accS) := by
        rw [buildStep, if_pos hrem]
      rw [hstep]
      obtain ⟨g1, g2, g3, g4, g5, g6, g7, g8⟩ := ih accB accS h1 h2 h3 h4
      have hdec : decide (0 < remaining_tokens o) = false := decide_eq_false (by omega)
      have hbg : ∀ q, buyGroup (o :: os) q = buyGroup os q := by
        intro q
        have hcond : ¬ ((o.side == OrderSide.BUY && decide (0 < remaining_tokens o) &&
            (quant6F (buy_price o) == q)) = true) := by
          rw [hdec]
          simp
        rw [buyGroup_cons, if_neg hcond]
      have hsg : ∀ q, sellGroup (o :: os) q = sellGroup os q := by
        intro q
        have hcond : ¬ ((o.side == OrderSide.SELL && decide (0 < remaining_tokens o) &&
            (quant6F (sell_price o) == q)) = true) := by
          rw [hdec]
          simp
        rw [sellGroup_cons, if_neg hcond]
      exact ⟨g1, g2, g3, g4,
        fun q => by rw [hbg q]; exact g5 q,
        fun q => by rw [hbg q]; exact g6 q,
        fun q => by rw [hsg q]; exact g7 q,
        fun q => by rw [hsg q]; exact g8 q⟩
    · have hdec : decide (0 < remaining_tokens o) = true := decide_eq_true (by omega)
      cases hside : o.side with
      | BUY =>
        have hbuy : (o.side == OrderSide.BUY) = true := by rw [hside]; rfl
        have hsell : (o.side == OrderSide.SELL) = false := by rw [hside]; rfl
        have hstep : buildStep (accB, accS) o =
            (addLevel accB (quant6F (buy_price o)) (remaining_tokens o), accS) := by
          rw [buildStep, if_neg hrem, hside]
        rw [hstep]
        obtain ⟨ha1, ha2, ha3⟩ :=
          addLevel_facts accB (quant6F (buy_price o)) (remaining_tokens o) h1
        have hden1 : ∀ x ∈ addLevel accB (quant6F (buy_price o)) (remaining_tokens o),
            0 < x.price.den := by
          intro x hx
          rcases mem_addLevel hx with h | ⟨y, hy, h⟩
          · rw [h, quant6F_den]; norm_num
          · rw [h]; exact h3 y hy
        obtain ⟨g1, g2, g3, g4, g5, g6, g7, g8⟩ :=
          ih (addLevel accB (quant6F (buy_price o)) (remaining_tokens o)) accS ha1 h2 hden1 h4
        have hsgq : ∀ q, sellGroup (o :: os) q = sellGroup os q := by
          intro q
          have hcond : ¬ ((o.side == OrderSide.SELL && decide (0 < remaining_tokens o) &&
              (quant6F (sell_price o) == q)) = true) := by
            rw [hsell]
            simp
          rw [sellGroup_cons, if_neg hcond]
        refine ⟨g1, g2, g3, g4, ?_, ?_,
          fun q => by rw [hsgq q]; exact g7 q,
          fun q => by rw [hsgq q]; exact g8 q⟩
        · intro q
          rw [g5 q, ha2 q, buyGroup_cons]
          by_cases hq : (quant6F (buy_price o) == q) = true
          · have hcond : (o.side == OrderSide.BUY && decide (0 < remaining_tokens o) &&
                (quant6F (buy_price o) == q)) = true := by rw [hbuy, hdec, hq]; rfl
            rw [if_pos hcond, List.map_cons, List.sum_cons,
              if_pos ((beq_iff_eq.mp hq).symm : q = quant6F (buy_price o))]
            ring
          · have hq' : (quant6F (buy_price o) == q) = false := by simpa using hq
            have hcond : ¬ ((o.side == OrderSide.BUY && decide (0 < remaining_tokens o) &&
                (quant6F (buy_price o) == q)) = true) := by
              rw [hq']
              simp
            have hqe : ¬ q = quant6F (buy_price o) := fun h => hq (beq_iff_eq.mpr h.symm)
            rw [if_neg hcond, if_neg hqe]
            ring
        · intro q
          rw [g6 q, ha3 q, buyGroup_cons]
          by_cases hq : (quant6F (buy_price o) == q) = true
          · have hcond : (o.side == OrderSide.BUY && decide (0 < remaining_tokens o) &&
                (quant6F (buy_price o) == q)) = true := by rw [hbuy, hdec, hq]; rfl
            rw [if_pos hcond, List.length_cons,
              if_pos ((beq_iff_eq.mp hq).symm : q = quant6F (buy_price o))]
            omega
          · have hq' : (quant6F (buy_price o) == q) = false := by simpa using hq
            have hcond : ¬ ((o.side == OrderSide.BUY && decide (0 < remaining_tokens o) &&
                (quant6F (buy_price o) == q)) = true) := by
              rw [hq']
              simp
            have hqe : ¬ q = quant6F (buy_price o) := fun h => hq (beq_iff_eq.mpr h.symm)
            rw [if_neg hcond, if_neg hqe]
            omega
      | SELL =>
        have hbuy : (o.side == OrderSide.BUY) = false := by rw [hside]; rfl
        have hsell : (o.side == OrderSide.SELL) = true := by rw [hside]; rfl
        have hstep : buildStep (accB, accS) o =
            (accB, addLevel accS (quant6F (sell_price o)) (remaining_tokens o)) := by
          rw [buildStep, if_neg hrem, hside]
        rw [hstep]
        obtain ⟨ha1, ha2, ha3⟩ :=
          addLevel_facts accS (quant6F (sell_price o)) (remaining_tokens o) h2
        have hden1 : ∀ x ∈ addLevel accS (quant6F (sell_price o)) (remaining_tokens o),
            0 < x.price.den := by
          intro x hx
          rcases mem_addLevel hx with h | ⟨y, hy, h⟩
          · rw [h, quant6F_den]; norm_num
          · rw [h]; exact h4 y hy
        obtain ⟨g1, g2, g3, g4, g5, g6, g7, g8⟩ :=
          ih accB (addLevel accS (quant6F (sell_price o)) (remaining_tokens o)) h1 ha1 h3 hden1
        have hbgq : ∀ q, buyGroup (o :: os) q = buyGroup os q := by
          intro q
          have hcond : ¬ ((o.side == OrderSide.BUY && decide (0 < remaining_tokens o) &&
              (quant6F (buy_price o) == q)) = true) := by
            rw [hbuy]
            simp
          rw [buyGroup_cons, if_neg hcond]
        refine ⟨g1, g2, g3, g4,
          fun q => by rw [hbgq q]; exact g5 q,
          fun q => by rw [hbgq q]; exact g6 q, ?_, ?_⟩
        · intro q
          rw [g7 q, ha2 q, sellGroup_cons]
          by_cases hq : (quant6F (sell_price o) == q) = true
          · have hcond : (o.side == OrderSide.SELL && decide (0 < remaining_tokens o) &&
                (quant6F (sell_price o) == q)) = true := by rw [hsell, hdec, hq]; rfl
            rw [if_pos hcond, List.map_cons, List.sum_cons,
              if_pos ((beq_iff_eq.mp hq).symm : q = quant6F (sell_price o))]
            ring
          · have hq' : (quant6F (sell_price o) == q) = false := by simpa using hq
            have hcond : ¬ ((o.side == OrderSide.SELL && decide (0 < remaining_tokens o) &&
                (quant6F (sell_price o) == q)) = true) := by
              rw [hq']
              simp
            have hqe : ¬ q = quant6F (sell_price o) := fun h => hq (beq_iff_eq.mpr h.symm)
            rw [if_neg hcond, if_neg hqe]
            ring
        · intro q
          rw [g8 q, ha3 q, sellGroup_cons]
          by_cases hq : (quant6F (sell_price o) == q) = true
          · have hcond : (o.side == OrderSide.SELL && decide (0 < remaining_tokens o) &&
                (quant6F (sell_price o) == q)) = true := by rw [hsell, hdec, hq]; rfl
            rw [if_pos hcond, List.length_cons,
              if_pos ((beq_iff_eq.mp hq).symm : q = quant6F (sell_price o))]
            omega
          · have hq' : (quant6F (sell_price o) == q) = false := by simpa using hq
            have hcond : ¬ ((o.side == OrderSide.SELL && decide (0 < remaining_tokens o) &&
                (quant6F (sell_price o) == q)) = true) := by
              rw [hq']
              simp
            have hqe : ¬ q = quant6F (sell_price o) := fun h => hq (beq_iff_eq.mpr h.symm)
            rw [if_neg hcond, if_neg hqe]
            omega

theorem buildLevels_facts (orders : List Order) :
    (∀ x, keyCount (buildLevels orders).1 x ≤ 1) ∧
    (∀ x, keyCount (buildLevels orders).2 x ≤ 1) ∧
    (∀ x ∈ (buildLevels orders).1, 0 < x.price.den) ∧
    (∀ x ∈ (buildLevels orders).2, 0 < x.price.den) ∧
    (∀ q, sizeAt (buildLevels orders).1 q = ((buyGroup orders q).map remaining_tokens).sum) ∧
    (∀ q, countAt (buildLevels orders).1 q = (buyGroup orders q).length) ∧
    (∀ q, sizeAt (buildLevels orders).2 q = ((sellGroup orders q).map remaining_tokens).sum) ∧
    (∀ q, countAt (buildLevels orders).2 q = (sellGroup orders q).length) := by
  have hz : ∀ x : Frac, keyCount ([] : List AggregatedLevel) x ≤ 1 := by
    intro x
    rw [keyCount]
    simp
  obtain ⟨g1, g2, g3, g4, g5, g6, g7, g8⟩ := buildLevels_go orders [] [] hz hz
    (by intro x hx; simp at hx) (by intro x hx; simp at hx)
  rw [buildLevels]
  refine ⟨g1, g2, g3, g4, ?_, ?_, ?_, ?_⟩ <;> intro q
  · rw [g5 q]; rw [sizeAt]; simp
  · rw [g6 q]; rw [countAt]; simp
  · rw [g7 q]; rw [sizeAt]; simp
  · rw [g8 q]; rw [countAt]; simp

theorem level_eq_of_mem (lvs : List AggregatedLevel) (hinv : ∀ x, keyCount lvs x ≤ 1)
    (lv : AggregatedLevel) (hlv : lv ∈ lvs) :
    sizeAt lvs lv.price = lv.size ∧ countAt lvs lv.price = lv.order_count := by
  have hmem : lv ∈ lvs.filter (fun l => l.price == lv.price) :=
    List.mem_filter.mpr ⟨hlv, by simp⟩
  have hlen := hinv lv.price
  rw [keyCount] at hlen
  rcases hfl : lvs.filter (fun l => l.price == lv.price) with _ | ⟨x, xs⟩
  · rw [hfl] at hmem
    exact absurd hmem (List.not_mem_nil lv)
  · rw [hfl] at hmem hlen
    have hxs : xs = [] := by
      rcases xs with _ | ⟨y, ys⟩
      · rfl
      · rw [List.length_cons, List.length_cons] at hlen
        omega
    subst hxs
    have hx : lv = x := List.mem_singleton.mp hmem
    subst hx
    rw [sizeAt, countAt, hfl]
    simp

theorem addF_val (a b : Frac) (ha : 0 < a.den) (hb : 0 < b.den) :
    (addF a b).val = a.val + b.val := by
  rw [addF, Frac.val, Frac.val, Frac.val]
  have ha' : ((a.den : ℚ)) ≠ 0 := by positivity
  have hb' : ((b.den : ℚ)) ≠ 0 := by positivity
  field_simp
  all_goals push_cast
  all_goals ring

theorem halfF_val (f : Frac) (hf : 0 < f.den) :
    (halfF f).val = f.val / 2 := by
  rw [halfF, Frac.val, Frac.val]
  have hf' : ((f.den : ℚ)) ≠ 0 := by positivity
  field_simp
  all_goals push_cast
  all_goals ring

theorem levelDescLE_eq (a b : AggregatedLevel) : levelDescLE a b = Frac.vle b.price a.price := rfl

theorem levelAscLE_eq (a b : AggregatedLevel) : levelAscLE a b = Frac.vle a.price b.price := rfl

/-- Claim C7, counterexample.  The claim says the mid price is the average of
the best bid and best ask.  With one bid at 0.000001 and one ask at 0.000002
the source quantizes the average 0.0000015 to six decimal places (half-even),
reporting 0.000002 — not the average. -/
theorem claim_C7_counterexample :
    ((get_orderbook_snapshot [sampleOrder 1 OrderSide.BUY 1 1000000,
        sampleOrder 2 OrderSide.SELL 1000000 2] "c" "t" 10).bids.map (fun l => l.price)
      = [⟨1, 1000000⟩] ∧
     (get_orderbook_snapshot [sampleOrder 1 OrderSide.BUY 1 1000000,
        sampleOrder 2 OrderSide.SELL 1000000 2] "c" "t" 10).asks.map (fun l => l.price)
      = [⟨2, 1000000⟩] ∧
     (get_orderbook_snapshot [sampleOrder 1 OrderSide.BUY 1 1000000,
        sampleOrder 2 OrderSide.SELL 1000000 2] "c" "t" 10).mid_price
      = some ⟨2, 1000000⟩) ∧
    ¬ (Frac.val ⟨2, 1000000⟩ = (Frac.val ⟨1, 1000000⟩ + Frac.val ⟨2, 1000000⟩) / 2) := by
  constructor
  · exact ⟨by decide, by decide, by decide⟩
  · simp only [Frac.val]
    norm_num

/-- Claim C7 (amended): the snapshot groups the resting OPEN/PARTIAL orders of
the market and token with positive remaining quantity by their quantized
(6 decimal places, half-even) implied price; each bid (ask) level's size is
the sum of the grouped BUY (SELL) orders' remaining quantities and its
order count their number; bids are sorted descending and asks ascending by
price, each truncated to the requested depth; and when both sides are
non-empty the mid price is the 6-decimal quantization of the average of the
best bid and best ask (equal to the quantized exact average whenever the two
intermediate decimal operations are exact), while it is None — distinguishable
from zero — when either side is empty. -/
theorem claim_C7_amended (store : List Order) (conditionId tokenId : String) (depth : Nat)
    (hdom : ∀ o ∈ store, 0 < o.makerAmount ∧ 0 < o.takerAmount ∧
      (quant6F (buy_price o)).num.natAbs < 10 ^ 28 ∧
      (quant6F (sell_price o)).num.natAbs < 10 ^ 28) :
    (∀ lv ∈ (get_orderbook_snapshot store conditionId tokenId depth).bids,
      lv.size = ((buyGroup (bookFilter store conditionId tokenId) lv.price).map
        remaining_tokens).sum ∧
      lv.order_count = (buyGroup (bookFilter store conditionId tokenId) lv.price).length) ∧
    (∀ lv ∈ (get_orderbook_snapshot store conditionId tokenId depth).asks,
      lv.size = ((sellGroup (bookFilter store conditionId tokenId) lv.price).map
        remaining_tokens).sum ∧
      lv.order_count = (sellGroup (bookFilter store conditionId tokenId) lv.price).length) ∧
    (get_orderbook_snapshot store conditionId tokenId depth).bids.Pairwise
      (fun x y => y.price.val ≤ x.price.val) ∧
    (get_orderbook_snapshot store conditionId tokenId depth).asks.Pairwise
      (fun x y => x.price.val ≤ y.price.val) ∧
    (get_orderbook_snapshot store conditionId tokenId depth).bids.length ≤ depth ∧
    (get_orderbook_snapshot store conditionId tokenId depth).asks.length ≤ depth ∧
    (∀ b bs a as, (get_orderbook_snapshot store conditionId tokenId depth).bids = b :: bs →
      (get_orderbook_snapshot store conditionId tokenId depth).asks = a :: as →
      (get_orderbook_snapshot store conditionId tokenId depth).mid_price =
        some (quant6F (rnd28F (halfF (rnd28F (addF b.price a.price))))) ∧
      (rnd28F (addF b.price a.price) = addF b.price a.price →
        rnd28F (halfF (addF b.price a.price)) = halfF (addF b.price a.price) →
        (get_orderbook_snapshot store conditionId tokenId depth).mid_price =
          some (quant6F (halfF (addF b.price a.price))) ∧
        (halfF (addF b.price a.price)).val = (b.price.val + a.price.val) / 2)) ∧
    (((get_orderbook_snapshot store conditionId tokenId depth).bids = [] ∨
      (get_orderbook_snapshot store conditionId tokenId depth).asks = []) →
      (get_orderbook_snapshot store conditionId tokenId depth).mid_price = none) := by
  obtain ⟨k1, k2, d1, d2, s1, c1, s2, c2⟩ := buildLevels_facts (bookFilter store conditionId tokenId)
  have hbids : (get_orderbook_snapshot store conditionId tokenId depth).bids =
      (stableSortBy levelDescLE
        (buildLevels (bookFilter store conditionId tokenId)).1).take depth := rfl
  have hasks : (get_orderbook_snapshot store conditionId tokenId depth).asks =
      (stableSortBy levelAscLE
        (buildLevels (bookFilter store conditionId tokenId)).2).take depth := rfl
  have hmidd : (get_orderbook_snapshot store conditionId tokenId depth).mid_price =
      (match (get_orderbook_snapshot store conditionId tokenId depth).bids,
          (get_orderbook_snapshot store conditionId tokenId depth).asks with
        | b :: _, a :: _ => some (quant6F (rnd28F (halfF (rnd28F (addF b.price a.price)))))
        | _, _ => none) := rfl
  have hmb : ∀ lv ∈ (get_orderbook_snapshot store conditionId tokenId depth).bids,
      lv ∈ (buildLevels (bookFilter store conditionId tokenId)).1 := by
    intro lv h
    rw [hbids] at h
    exact mem_stableSortBy.mp (List.take_subset depth _ h)
  have hma : ∀ lv ∈ (get_orderbook_snapshot store conditionId tokenId depth).asks,
      lv ∈ (buildLevels (bookFilter store conditionId tokenId)).2 := by
    intro lv h
    rw [hasks] at h
    exact mem_stableSortBy.mp (List.take_subset depth _ h)
  refine ⟨?_, ?_, ?_, ?_, ?_, ?_, ?_, ?_⟩
  · intro lv hlv
    have h1 := level_eq_of_mem _ k1 lv (hmb lv hlv)
    exact ⟨h1.1.symm.trans (s1 lv.price), h1.2.symm.trans (c1 lv.price)⟩
  · intro lv hlv
    have h1 := level_eq_of_mem _ k2 lv (hma lv hlv)
    exact ⟨h1.1.symm.trans (s2 lv.price), h1.2.symm.trans (c2 lv.price)⟩
  · have hsorted := stableSortBy_pairwise levelDescLE (fun lv => 0 < lv.price.den)
      (by
        intro x y z hx hy hz hxy hyz
        rw [levelDescLE_eq] at hxy hyz ⊢
        rw [Frac.vle_iff hy hx] at hxy
        rw [Frac.vle_iff hz hy] at hyz
        rw [Frac.vle_iff hz hx]
        exact hyz.trans hxy)
      (by
        intro x y _ _
        rw [levelDescLE_eq, levelDescLE_eq]
        exact (Frac.vle_total y.price x.price).elim Or.inl Or.inr)
      (buildLevels (bookFilter store conditionId tokenId)).1 d1
    have h2 : (get_orderbook_snapshot store conditionId tokenId depth).bids.Pairwise
        (fun a b => levelDescLE a b = true) := by
      rw [hbids]
      exact List.Pairwise.sublist (List.take_sublist depth _) hsorted
    refine List.Pairwise.imp_of_mem ?_ h2
    intro x y hx hy hr
    rw [levelDescLE_eq] at hr
    exact (Frac.vle_iff (d1 y (hmb y hy)) (d1 x (hmb x hx))).mp hr
  · have hsorted := stableSortBy_pairwise levelAscLE (fun lv => 0 < lv.price.den)
      (by
        intro x y z hx hy hz hxy hyz
        rw [levelAscLE_eq] at hxy hyz ⊢
        rw [Frac.vle_iff hx hy] at hxy
        rw [Frac.vle_iff hy hz] at hyz
        rw [Frac.vle_iff hx hz]
        exact hxy.trans hyz)
      (by
        intro x y _ _
        rw [levelAscLE_eq, levelAscLE_eq]
        exact (Frac.vle_total x.price y.price).elim Or.inl Or.inr)
      (buildLevels (bookFilter store conditionId tokenId)).2 d2
    have h2 : (get_orderbook_snapshot store conditionId tokenId depth).asks.Pairwise
        (fun a b => levelAscLE a b = true) := by
      rw [hasks]
      exact List.Pairwise.sublist (List.take_sublist depth _) hsorted
    refine List.Pairwise.imp_of_mem ?_ h2
    intro x y hx hy hr
    rw [levelAscLE_eq] at hr
    exact (Frac.vle_iff (d2 x (hma x hx)) (d2 y (hma y hy))).mp hr
  · rw [hbids, List.length_take]
    omega
  · rw [hasks, List.length_take]
    omega
  · intro b bs a as hb ha
    have hbd : 0 < b.price.den := d1 b (hmb b (by rw [hb]; exact List.mem_cons_self _ _))
    have had : 0 < a.price.den := d2 a (hma a (by rw [ha]; exact List.mem_cons_self _ _))
    constructor
    · rw [hmidd, hb, ha]
    · intro hex1 hex2
      constructor
      · rw [hmidd, hb, ha]
        show some (quant6F (rnd28F (halfF (rnd28F (addF b.price a.price))))) =
          some (quant6F (halfF (addF b.price a.price)))
        rw [hex1, hex2]
      · have hprod : 0 < (addF b.price a.price).den := Nat.mul_pos hbd had
        rw [halfF_val _ hprod, addF_val _ _ hbd had]
  · intro h
    rcases h with h | h
    · rw [hmidd, h]
    · rcases hb2 : (get_orderbook_snapshot store conditionId tokenId depth).bids with _ | ⟨x, xs⟩
      · rw [hmidd, hb2]
      · rw [hmidd, hb2, h]

/-- Claim C7, witness: the two resting BUY orders at quantized price 0.5 form
one bid level whose size 6 is the sum of their remaining quantities 2 and 4
and whose order count is 2. -/
theorem claim_C7_witness :
    (⟨⟨500000, 1000000⟩, 6, 2⟩ : AggregatedLevel).size =
      ((buyGroup (bookFilter c7store "c" "t")
        (⟨⟨500000, 1000000⟩, 6, 2⟩ : AggregatedLevel).price).map remaining_tokens).sum ∧
    (⟨⟨500000, 1000000⟩, 6, 2⟩ : AggregatedLevel).order_count =
      (buyGroup (bookFilter c7store "c" "t")
        (⟨⟨500000, 1000000⟩, 6, 2⟩ : AggregatedLevel).price).length :=
  (claim_C7_amended c7store "c" "t" 10 (by decide)).1
    ⟨⟨500000, 1000000⟩, 6, 2⟩ (by decide)

end RushTrade
